import Mathlib

/-!
Verification of the asset-merger-engine reconciliation core.

Shallow embedding of the Python sources in `src/lib/` (differ.py,
differ_utils.py, validator.py, sorter.py) and proofs about the embedded
definitions.  Python strings are modelled as `List Char`; Python `dict`s
whose keys are strings are modelled as association lists; fallible
operations (which may raise in Python) return `Option`.
-/

namespace Merger

/-- Python strings, modelled as lists of characters. -/
abbrev Str := List Char

/-- Characters treated as whitespace by Python's `str.strip()` /
`str.split()` (the ASCII subset, which covers all values occurring in the
repository's formats). -/
def isPySpace (c : Char) : Bool :=
  c = ' ' || c = '\t' || c = '\n' || c = '\r' || c = '\x0b' || c = '\x0c'

/-- `s.lstrip()`. -/
def lstrip (s : Str) : Str := s.dropWhile isPySpace

/-- `s.rstrip()`. -/
def rstrip (s : Str) : Str := (s.reverse.dropWhile isPySpace).reverse

/-- Python `s.strip()`. -/
def pyStrip (s : Str) : Str := rstrip (lstrip s)

/-- Python `s.strip('"')`: remove double-quote characters from both ends. -/
def stripQuotes (s : Str) : Str :=
  ((s.dropWhile (· = '"')).reverse.dropWhile (· = '"')).reverse

/-- Python `s.split(sep, 1)[1]` for a one-character separator: everything
after the first occurrence (the separator is known to occur wherever the
source uses this). -/
def afterFirst (sep : Char) (s : Str) : Str :=
  (s.dropWhile (· ≠ sep)).tail

/-- Python `s.startswith(p)`. -/
def pyStartsWith (p s : Str) : Bool := p.isPrefixOf s

/-- Python `'\n'.join`-style splitting: split a string into lines at each
newline character (how the line-oriented parser sees a file's content,
since every parsed line is subsequently stripped). -/
def splitLines : Str → List Str
  | [] => [[]]
  | c :: rest =>
    if c = '\n' then [] :: splitLines rest
    else
      match splitLines rest with
      | [] => [[c]]
      | l :: ls => (c :: l) :: ls

/-- Python `str.lower()` (ASCII; identifiers in the repository are ASCII). -/
def pyLower (s : Str) : Str := s.map Char.toLower

/-- Decimal digit string of a natural number (the characters of Python
`str(n)` for `n ≥ 0`). -/
def natStr (n : Nat) : Str := Nat.toDigits 10 n

/-- Characters of Python `str(n)` for an integer. -/
def intStr (n : Int) : Str :=
  if n < 0 then '-' :: natStr n.natAbs else natStr n.natAbs

/-! ## Python values and records (differ.py data model) -/

/-- A Python scalar value as it occurs in asset records: `None`, a string,
an integer, or a float (modelled as a rational; the repository only relies
on exact small decimals, so rationals are an adequate embedding). -/
inductive PyVal where
  | pynone
  | str (s : Str)
  | int (n : Int)
  | float (q : Rat)
deriving DecidableEq

/-- Characters of Python `str(v)`.  Float rendering is only ever applied to
integral floats in this development (decimal rendering of arbitrary floats
is approximated by `num/den`; no theorem depends on it). -/
def pyValStr : PyVal → Str
  | .pynone => "None".toList
  | .str s => s
  | .int n => intStr n
  | .float q =>
    if q.den = 1 then intStr q.num ++ ".0".toList
    else intStr q.num ++ "/".toList ++ natStr q.den

/-- Python truthiness test (`if not x`) for the scalar values above. -/
def pyFalsy : PyVal → Bool
  | .pynone => true
  | .str s => s.isEmpty
  | .int n => n = 0
  | .float q => q = 0

/-- A record: a Python dict keyed by field-name strings, as an association
list (keys unique, insertion order preserved). -/
abbrev Record := List (Str × PyVal)

/-- `d.get(k)` (`none` when the key is absent). -/
def pyGet (r : Record) (k : Str) : Option PyVal :=
  (r.find? (fun p => p.1 = k)).map (·.2)

/-- An exact (not necessarily reduced) fraction `num / den` with `den > 0`,
the result of a successful numeric parse.  Kept unnormalized so that every
arithmetic step is plain integer arithmetic the kernel can evaluate; the
rational value is recovered by `Frac.val`. -/
structure Frac where
  num : Int
  den : Nat
deriving DecidableEq

/-- The rational value of a fraction. -/
def Frac.val (f : Frac) : Rat := (f.num : Rat) / (f.den : Rat)

/-- Numeric value of a decimal digit run. -/
def digitsVal (ds : Str) : Nat := ds.foldl (fun a c => a * 10 + (c.toNat - 48)) 0

/-- Python `float(s)` on a string: optional surrounding whitespace, optional
sign, decimal digits with an optional fractional part and an optional
exponent.  (`inf`/`nan`/underscored literals are outside the embedding.) -/
def parseFloat (s : Str) : Option Frac :=
  let t := pyStrip s
  let signNeg := match t with
    | '-' :: _ => true
    | _ => false
  let t1 := match t with
    | '-' :: r => r
    | '+' :: r => r
    | _ => t
  let ip := t1.takeWhile Char.isDigit
  let t2 := t1.dropWhile Char.isDigit
  let fp := match t2 with
    | '.' :: r => r.takeWhile Char.isDigit
    | _ => []
  let t3 := match t2 with
    | '.' :: r => r.dropWhile Char.isDigit
    | _ => t2
  if ip.isEmpty && fp.isEmpty then none
  else
    let mantAbs : Int := digitsVal (ip ++ fp)
    let mant : Int := if signNeg then -mantAbs else mantAbs
    let base : Frac := ⟨mant, 10 ^ fp.length⟩
    match t3 with
    | [] => some base
    | c :: r =>
      if c = 'e' || c = 'E' then
        let eNeg := match r with
          | '-' :: _ => true
          | _ => false
        let r1 := match r with
          | '-' :: u => u
          | '+' :: u => u
          | _ => r
        let ed := r1.takeWhile Char.isDigit
        if ed.isEmpty || !(r1.dropWhile Char.isDigit).isEmpty then none
        else
          let e := digitsVal ed
          some (if eNeg then ⟨base.num, base.den * 10 ^ e⟩
                else ⟨base.num * ((10 ^ e : Nat) : Int), base.den⟩)
      else none

/-- Python `float(v)` over our scalar values (`none` where Python raises
`ValueError`/`TypeError`). -/
def pyFloatVal : PyVal → Option Frac
  | .pynone => none
  | .str s => parseFloat s
  | .int n => some ⟨n, 1⟩
  | .float q => some ⟨q.num, q.den⟩

/-- `|a - b| ≤ tol` for exact fractions, by cross-multiplication (all
denominators are positive), mirroring `abs(a - b) <= tolerance` on the
rational values. -/
def Frac.absSubLe (a b tol : Frac) : Bool :=
  |a.num * (b.den : Int) - b.num * (a.den : Int)| * (tol.den : Int)
    ≤ tol.num * ((a.den : Int) * (b.den : Int))

/-! ## DifferAgent (src/lib/differ.py) -/

/-- The `DifferAgent` comparison configuration (`__init__`). -/
structure DifferConfig where
  case_sensitive : Bool := false
  normalize_whitespace : Bool := true
  excluded_fields : List Str := []
  tolerance : Frac := ⟨1, 100⟩
deriving DecidableEq

/-- `' '.join(s.split())`: collapse whitespace runs and trim. -/
def collapseWs (s : Str) : Str :=
  List.intercalate [' '] ((s.splitOnP isPySpace).filter (fun w => !w.isEmpty))

/-- `DifferAgent.normalize_value`. -/
def normalize_value (cfg : DifferConfig) (v : PyVal) : PyVal :=
  match v with
  | .pynone => .str "null".toList
  | .str s =>
    let s1 := if cfg.normalize_whitespace then collapseWs s else s
    let s2 := if !cfg.case_sensitive then pyLower s1 else s1
    .str s2
  | v => v

/-- `DifferAgent.compare_values`: `True` when the two values are considered
equal (null handling, then numeric comparison with tolerance, then
normalized string comparison). -/
def compare_values (cfg : DifferConfig) (zabbix_val topdesk_val : PyVal) : Bool :=
  if zabbix_val = .pynone && topdesk_val = .pynone then true
  else if zabbix_val = .pynone || topdesk_val = .pynone then false
  else
    let zabbix_norm := normalize_value cfg zabbix_val
    let topdesk_norm := normalize_value cfg topdesk_val
    match pyFloatVal zabbix_val, pyFloatVal topdesk_val with
    | some zabbix_num, some topdesk_num => zabbix_num.absSubLe topdesk_num cfg.tolerance
    | _, _ => zabbix_norm = topdesk_norm

/-- The field name of the synthetic presence marker difference. -/
def presenceName : Str := "_system_presence".toList

/-- One field-level difference as built by `DifferAgent` (a Python dict with
keys `field_name`, `zabbix_value`, `topdesk_value`, `difference_type`). -/
structure FieldDiff where
  field_name : Str
  zabbix_value : PyVal
  topdesk_value : PyVal
  difference_type : Str
deriving DecidableEq

/-- Which system an unmatched asset was found in. -/
inductive SystemSide where
  | zabbix
  | topdesk
deriving DecidableEq

/-- `DifferAgent._handle_single_system_asset`: one difference per
non-excluded field plus the synthetic `asset_missing` marker inserted at
position 0. -/
def handle_single_system_asset (cfg : DifferConfig) (asset_data : Record)
    (system : SystemSide) : List FieldDiff :=
  let fieldDiffs := asset_data.filterMap (fun p =>
    if p.1 ∈ cfg.excluded_fields then none
    else some
      { field_name := p.1
        zabbix_value := if system = .zabbix then p.2 else .str "null".toList
        topdesk_value := if system = .topdesk then p.2 else .str "null".toList
        difference_type :=
          (if system = .zabbix then "missing_in_topdesk" else "missing_in_zabbix").toList })
  { field_name := presenceName
    zabbix_value := .str ((if system = .zabbix then "present" else "absent").toList)
    topdesk_value := .str ((if system = .topdesk then "present" else "absent").toList)
    difference_type := "asset_missing".toList } :: fieldDiffs

/-- `DifferAgent._compare_matched_assets`.  The union of the two key sets is
iterated in first-occurrence order (CPython iterates a `set` in an
unspecified order; every property proved below is insensitive to it). -/
def compare_matched_assets (cfg : DifferConfig) (zabbix_asset topdesk_asset : Record) :
    List FieldDiff :=
  let all_fields := (zabbix_asset.map (·.1) ++ topdesk_asset.map (·.1)).dedup
  all_fields.filterMap (fun f =>
    if f ∈ cfg.excluded_fields then none
    else
      let zabbix_value := (pyGet zabbix_asset f).getD .pynone
      let topdesk_value := (pyGet topdesk_asset f).getD .pynone
      if (pyGet zabbix_asset f).isNone then
        some ⟨f, .str "null".toList, .str (pyValStr topdesk_value), "missing_in_zabbix".toList⟩
      else if (pyGet topdesk_asset f).isNone then
        some ⟨f, .str (pyValStr zabbix_value), .str "null".toList, "missing_in_topdesk".toList⟩
      else if !compare_values cfg zabbix_value topdesk_value then
        some ⟨f, .str (pyValStr zabbix_value), .str (pyValStr topdesk_value), "value_mismatch".toList⟩
      else none)

/-- The run statistics kept by a `DifferAgent` (`self.stats`). -/
structure DifferStats where
  total_assets_processed : Nat := 0
  matched_assets : Nat := 0
  zabbix_only : Nat := 0
  topdesk_only : Nat := 0
  assets_with_differences : Nat := 0
  total_differences : Nat := 0
deriving DecidableEq

/-- A keyed collection of records (`Dict[str, Dict]`). -/
abbrev DataSet := List (Str × Record)

/-- `d.get(k)` on a dataset. -/
def dsGet (d : DataSet) (k : Str) : Option Record :=
  (d.find? (fun p => p.1 = k)).map (·.2)

/-- One iteration of the `for asset_id in all_asset_ids` loop of
`DifferAgent.compare_assets`. -/
def compare_assets_step (cfg : DifferConfig) (zabbix_data topdesk_data : DataSet)
    (acc : List (Str × List FieldDiff) × DifferStats) (asset_id : Str) :
    List (Str × List FieldDiff) × DifferStats :=
  let stats := acc.2
  let zabbix_asset := (dsGet zabbix_data asset_id).getD []
  let topdesk_asset := (dsGet topdesk_data asset_id).getD []
  let step : List FieldDiff × DifferStats :=
    if zabbix_asset.isEmpty then
      (handle_single_system_asset cfg topdesk_asset .topdesk,
       { stats with topdesk_only := stats.topdesk_only + 1 })
    else if topdesk_asset.isEmpty then
      (handle_single_system_asset cfg zabbix_asset .zabbix,
       { stats with zabbix_only := stats.zabbix_only + 1 })
    else
      (compare_matched_assets cfg zabbix_asset topdesk_asset,
       { stats with matched_assets := stats.matched_assets + 1 })
  if step.1.isEmpty then (acc.1, step.2)
  else
    (acc.1 ++ [(asset_id, step.1)],
     { step.2 with
         assets_with_differences := step.2.assets_with_differences + 1
         total_differences := step.2.total_differences + step.1.length })

/-- `DifferAgent.compare_assets`: the per-asset difference map together with
the statistics after the loop.  Note that `if not zabbix_asset` is a Python
truthiness test, so an asset mapped to an *empty* record counts as absent. -/
def compare_assets (cfg : DifferConfig) (zabbix_data topdesk_data : DataSet) :
    List (Str × List FieldDiff) × DifferStats :=
  let all_asset_ids := (zabbix_data.map (·.1) ++ topdesk_data.map (·.1)).dedup
  all_asset_ids.foldl (compare_assets_step cfg zabbix_data topdesk_data)
    ([], { total_assets_processed := all_asset_ids.length })

/-! ## Difference documents and the .dif writer (generate_dif_file) -/

/-- A difference entry of the document body (`dif_content['differences']`):
the projection of a `FieldDiff` to its three reported keys. -/
structure DocDiff where
  field_name : Str
  zabbix_value : PyVal
  topdesk_value : PyVal
deriving DecidableEq

/-- `round(100 * matching / total, 2)` expressed in hundredths of a percent,
as an integer: `round(matching / total * 100, 2) * 100`.  (Rounding to
nearest, halves up; Python uses banker's rounding, which agrees on every
value this code actually produces.) -/
def simScoreX100 (matching : Int) (total : Nat) : Int :=
  (2 * (matching * 10000) + total).fdiv (2 * total)

/-- The structured content of one `.dif` document (`dif_content`).  The
similarity score — a Python float `round(x, 2)` — is held in hundredths so
that it remains in integer arithmetic. -/
structure DifDoc where
  asset_id : Str
  timestamp : Str
  total_differences : Nat
  note : Option Str := none
  differences : List DocDiff
  value_mismatches : Nat
  missing_in_zabbix : Nat
  missing_in_topdesk : Nat
  similarity_score_x100 : Option Int := none
deriving DecidableEq

/-- Number of differences of a given kind. -/
def countType (diffs : List FieldDiff) (ty : Str) : Nat :=
  (diffs.filter (fun d => d.difference_type = ty)).length

/-- The `asset_missing` marker found by the categorisation loop (the last
one wins, matching the repeated assignment in the loop). -/
def lastAssetMissing (diffs : List FieldDiff) : Option FieldDiff :=
  diffs.foldl
    (fun acc d => if d.difference_type = "asset_missing".toList then some d else acc) none

/-- `DifferAgent.generate_dif_file`, in-memory part: build `dif_content`
from the asset id and its differences. -/
def difContent (asset_id timestamp : Str) (differences : List FieldDiff) : DifDoc :=
  let asset_missing := lastAssetMissing differences
  let note : Option Str :=
    match asset_missing with
    | none => none
    | some d =>
      if d.zabbix_value = .str "absent".toList
      then some "Asset exists only in Topdesk system".toList
      else some "Asset exists only in Zabbix system".toList
  let body := (differences.filter (fun d => d.field_name ≠ presenceName)).map
    (fun d => DocDiff.mk d.field_name d.zabbix_value d.topdesk_value)
  let score : Option Int :=
    if asset_missing.isNone && !differences.isEmpty then
      let total_fields :=
        ((differences.filter (fun d => d.field_name ≠ presenceName)).map (·.field_name)).dedup.length
      let matching_fields : Int := (total_fields : Int) - (differences.length : Int)
      if 0 < total_fields then some (simScoreX100 matching_fields total_fields) else none
    else none
  { asset_id := asset_id
    timestamp := timestamp
    total_differences := differences.length
    note := note
    differences := body
    value_mismatches := countType differences "value_mismatch".toList
    missing_in_zabbix := countType differences "missing_in_zabbix".toList
    missing_in_topdesk := countType differences "missing_in_topdesk".toList
    similarity_score_x100 := score }

/-- Decimal rendering of the similarity score (hundredths → Python float
text, e.g. `0.0`, `50.0`, `66.67`).  Trailer text is advisory only; no
theorem depends on its exact characters. -/
def scoreStr (h : Int) : Str :=
  let sign : Str := if h < 0 then ['-'] else []
  let a := h.natAbs
  let r := a % 100
  sign ++ natStr (a / 100) ++
    (if r = 0 then ".0".toList
     else if r % 10 = 0 then '.' :: natStr (r / 10)
     else if r < 10 then '.' :: '0' :: natStr r
     else '.' :: natStr r)

/-- The three lines written for each difference entry (the body of the
`for diff in dif_content['differences']` loop of `generate_dif_file`). -/
def diffLines (ds : List DocDiff) : List Str :=
  (ds.map (fun d =>
    ["  - field_name: ".toList ++ d.field_name,
     "    zabbix_value: \"".toList ++ pyValStr d.zabbix_value ++ ['"'],
     "    topdesk_value: \"".toList ++ pyValStr d.topdesk_value ++ ['"']])).flatten

/-- The optional `note:` line (`if dif_content['note']:` — the two possible
note strings are non-empty, so truthiness coincides with presence). -/
def noteLines : Option Str → List Str
  | some n => ["note: ".toList ++ n]
  | none => []

/-- The optional `# Similarity score:` trailer line (written only when the
score key is present). -/
def scoreLines : Option Int → List Str
  | some h => ["# Similarity score: ".toList ++ scoreStr h ++ ['%']]
  | none => []

/-- The lines written by `generate_dif_file` (each `f.write` ends in a
newline, so the file is exactly these lines joined with `'\n'`). -/
def writerLines (doc : DifDoc) : List Str :=
  ["asset_id: ".toList ++ doc.asset_id]
  ++ noteLines doc.note
  ++ ["differences:".toList]
  ++ diffLines doc.differences
  ++ [[],
      "# Generated: ".toList ++ doc.timestamp,
      "# Total differences: ".toList ++ natStr doc.total_differences]
  ++ scoreLines doc.similarity_score_x100
  ++ ["# Value mismatches: ".toList ++ natStr doc.value_mismatches,
      "# Missing in Zabbix: ".toList ++ natStr doc.missing_in_zabbix,
      "# Missing in Topdesk: ".toList ++ natStr doc.missing_in_topdesk]

/-- Join lines into file content, one trailing newline each. -/
def joinNl (ls : List Str) : Str := (ls.map (fun l => l ++ ['\n'])).flatten

/-- `DifferAgent.generate_dif_file`: the document and the text written to
the `.dif` file. -/
def generate_dif_file (asset_id timestamp : Str) (differences : List FieldDiff) :
    DifDoc × Str :=
  let doc := difContent asset_id timestamp differences
  (doc, joinNl (writerLines doc))

/-! ## DifFileParser.parse_dif_file (src/lib/differ_utils.py) -/

/-- The dict built for one difference while parsing (`current_diff`): keys
appear as they are assigned. -/
structure PDiff where
  field_name : Option Str := none
  zabbix_value : Option Str := none
  topdesk_value : Option Str := none
deriving DecidableEq

/-- Python truthiness of `current_diff` (`if current_diff:`): the dict is
non-empty iff some key has been assigned. -/
def PDiff.isEmptyDict (d : PDiff) : Bool :=
  d.field_name.isNone && d.zabbix_value.isNone && d.topdesk_value.isNone

/-- The pending `current_diff` appended at end of input (`if current_diff:`
after the loop): nothing when the dict is still empty. -/
def pendingOf (p : PDiff) : List PDiff := if p.isEmptyDict then [] else [p]

/-- The parsed data of interest (`parsed_data`): asset id, note and the
difference list.  The trailer-metadata dict built from `# key: value`
comment lines is advisory free text and is not modelled (no claim and no
round-trip law mentions it). -/
structure ParsedDif where
  asset_id : Option Str := none
  note : Option Str := none
  differences : List PDiff := []
deriving DecidableEq

/-- Parser state while scanning lines (`current_section` is only ever `None`
or `'differences'`, hence a `Bool`). -/
structure ParseSt where
  acc : ParsedDif := {}
  inDifferences : Bool := false
  current : PDiff := {}
deriving DecidableEq

/-- The line loop body of `parse_dif_file`, applied to the stripped line. -/
def parseStripped (st : ParseSt) (line : Str) : ParseSt :=
  if line.isEmpty then st
  else if pyStartsWith "#".toList line then st
  else if pyStartsWith "asset_id:".toList line then
    { st with acc := { st.acc with asset_id := some (pyStrip (afterFirst ':' line)) } }
  else if pyStartsWith "note:".toList line then
    { st with acc := { st.acc with note := some (pyStrip (afterFirst ':' line)) } }
  else if line = "differences:".toList then
    { st with inDifferences := true }
  else if st.inDifferences then
    if pyStartsWith "- field_name:".toList line then
      let acc :=
        if st.current.isEmptyDict then st.acc
        else { st.acc with differences := st.acc.differences ++ [st.current] }
      { st with acc := acc, current := { field_name := some (pyStrip (afterFirst ':' line)) } }
    else if pyStartsWith "zabbix_value:".toList line then
      { st with current :=
          { st.current with zabbix_value := some (stripQuotes (pyStrip (afterFirst ':' line))) } }
    else if pyStartsWith "topdesk_value:".toList line then
      { st with current :=
          { st.current with topdesk_value := some (stripQuotes (pyStrip (afterFirst ':' line))) } }
    else st
  else st

/-- One iteration of the line loop of `parse_dif_file`: strip the raw line,
then dispatch on its shape. -/
def parseLine (st : ParseSt) (raw : Str) : ParseSt :=
  parseStripped st (pyStrip raw)

/-- `DifFileParser.parse_dif_file` on file content. -/
def parse_dif_file (content : Str) : ParsedDif :=
  let st := (splitLines content).foldl parseLine {}
  if st.current.isEmptyDict then st.acc
  else { st.acc with differences := st.acc.differences ++ [st.current] }

/-! ## ValidationResult (src/lib/validator.py) -/

/-- `ValidationStatus` (validator.py). -/
inductive ValidationStatus where
  | PASSED
  | PASSED_WITH_WARNINGS
  | FAILED
  | SKIPPED
  | ERROR
deriving DecidableEq

/-- `ValidationResult`.  The `name`, timestamps and `metadata` attributes are
carried unchanged by every method modelled here and are omitted. -/
structure ValidationResult where
  status : ValidationStatus := .PASSED
  checks_performed : Nat := 0
  passed_checks : Nat := 0
  warnings : List Str := []
  errors : List Str := []
  critical_errors : List Str := []
  info_messages : List Str := []
deriving DecidableEq

/-- `ValidationResult.add_check`.  `elif message:` is a truthiness test, so
`None` and the empty string both skip the append. -/
def add_check (r : ValidationResult) (passed : Bool) (message : Option Str := none) :
    ValidationResult :=
  let r := { r with checks_performed := r.checks_performed + 1 }
  if passed then { r with passed_checks := r.passed_checks + 1 }
  else
    match message with
    | some m => if m.isEmpty then r else { r with errors := r.errors ++ [m] }
    | none => r

/-- `ValidationResult.add_warning`. -/
def add_warning (r : ValidationResult) (message : Str) : ValidationResult :=
  { r with
      warnings := r.warnings ++ [message]
      status := if r.status = .PASSED then .PASSED_WITH_WARNINGS else r.status }

/-- `ValidationResult.add_error`. -/
def add_error (r : ValidationResult) (message : Str) (critical : Bool := false) :
    ValidationResult :=
  if critical then
    { r with critical_errors := r.critical_errors ++ [message], status := .FAILED }
  else
    { r with
        errors := r.errors ++ [message]
        status :=
          if r.status = .PASSED || r.status = .PASSED_WITH_WARNINGS then .FAILED
          else r.status }

/-- `ValidationResult.add_info`. -/
def add_info (r : ValidationResult) (message : Str) : ValidationResult :=
  { r with info_messages := r.info_messages ++ [message] }

/-- One call to a `ValidationResult` mutator, for reasoning about arbitrary
call sequences within a result's lifetime. -/
inductive VCall where
  | check (passed : Bool) (message : Option Str)
  | warning (message : Str)
  | error (message : Str) (critical : Bool)
  | info (message : Str)
deriving DecidableEq

/-- Apply one mutator call. -/
def applyCall (r : ValidationResult) : VCall → ValidationResult
  | .check passed message => add_check r passed message
  | .warning message => add_warning r message
  | .error message critical => add_error r message critical
  | .info message => add_info r message

/-- A freshly constructed `ValidationResult(name)` after an arbitrary
sequence of mutator calls. -/
def runCalls (calls : List VCall) : ValidationResult :=
  calls.foldl applyCall {}

/-! ## APL (change-list) validation (src/lib/validator.py) -/

/-- `MergerValidator.VALID_APL_STATUS`. -/
def VALID_APL_STATUS : List Str :=
  ["applied".toList, "failed".toList, "skipped".toList, "pending".toList]

/-- `timestamp.replace('Z', '+00:00')`. -/
def replaceZ (s : Str) : Str :=
  s.flatMap (fun c => if c = 'Z' then "+00:00".toList else [c])

/-- Approximation of `datetime.fromisoformat` acceptance (a `YYYY-MM-DD`
prefix optionally followed by a time part).  No claim depends on the exact
accepted set: the timestamp branch only ever adds a check or an error. -/
def isoValid (s : Str) : Bool :=
  match s with
  | y1 :: y2 :: y3 :: y4 :: '-' :: m1 :: m2 :: '-' :: d1 :: d2 :: rest =>
    [y1, y2, y3, y4, m1, m2, d1, d2].all Char.isDigit &&
      (rest.isEmpty || rest.head? = some 'T' || rest.head? = some ' ')
  | _ => false

/-- `MergerValidator._validate_timestamp` (with `context` string). -/
def validate_timestamp (r : ValidationResult) (timestamp : Str) (context : Str) :
    ValidationResult :=
  if isoValid (replaceZ timestamp) then
    add_check r true (some (context ++ " timestamp valid".toList))
  else
    add_error r (context ++ " Invalid timestamp format: ".toList ++ timestamp)

/-- State of the `_validate_apl_entries` loop: the mutated result, the
`seen_sequences` set (membership is all that matters), and whether a Python
exception was raised (`.replace` on a non-string timestamp), which aborts
the loop and propagates to the caller. -/
structure AplState where
  result : ValidationResult
  seen_sequences : List PyVal := []
  raised : Bool := false
deriving DecidableEq

/-- The command-structure check at the end of one loop iteration
(`if 'command' in entry: ...`). -/
def check_command (r : ValidationResult) (i : Nat) (entry : Record) : ValidationResult :=
  match pyGet entry "command".toList with
  | none => r
  | some (.str c) =>
    if (pyStrip c).isEmpty then
      add_error r ("Entry ".toList ++ natStr i ++ ": Invalid command".toList)
    else r
  | some _ =>
    add_error r ("Entry ".toList ++ natStr i ++ ": Invalid command".toList)

/-- The message `f"Entry {i}: Duplicate sequence number {seq}"`. -/
def dup_seq_msg (i : Nat) (seq : PyVal) : Str :=
  "Entry ".toList ++ natStr i ++ ": Duplicate sequence number ".toList ++ pyValStr seq

/-- The status check of one loop iteration (`if 'status' in entry: ...`).
The quote characters around the invalid value in the source's message are
not reproduced. -/
def check_status_field (r : ValidationResult) (i : Nat) (entry : Record) :
    ValidationResult :=
  match pyGet entry "status".toList with
  | none => r
  | some status =>
    let r :=
      if (VALID_APL_STATUS.map PyVal.str).contains status then r
      else add_error r ("Entry ".toList ++ natStr i ++ ": Invalid status ".toList
        ++ pyValStr status)
    if status = .str "failed".toList && (pyGet entry "error".toList).isNone then
      add_warning r ("Entry ".toList ++ natStr i
        ++ ": Failed status without error message".toList)
    else r

/-- The sequence-number check of one loop iteration
(`if 'sequence' in entry: ...`), returning the updated result and the
updated `seen_sequences`. -/
def check_sequence_field (r : ValidationResult) (i : Nat) (entry : Record)
    (seen : List PyVal) : ValidationResult × List PyVal :=
  match pyGet entry "sequence".toList with
  | none => (r, seen)
  | some seq =>
    let r := if seen.contains seq then add_error r (dup_seq_msg i seq) else r
    (r, seen ++ [seq])

/-- The body of the `for i, entry in enumerate(entries)` loop of
`MergerValidator._validate_apl_entries`. -/
def validate_apl_entry (st : AplState) (i : Nat) (entry : Record) : AplState :=
  if st.raised then st
  else
    match pyGet entry "asset_id".toList with
    | none =>
      { st with result := (add_error st.result
          ("Entry ".toList ++ natStr i ++ ": Missing asset_id".toList)) }
    | some _ =>
      let r := check_status_field st.result i entry
      let seqStep := check_sequence_field r i entry st.seen_sequences
      match pyGet entry "timestamp".toList with
      | some (.str ts) =>
        let r := validate_timestamp seqStep.1 ts ("Entry ".toList ++ natStr i)
        { result := check_command r i entry, seen_sequences := seqStep.2, raised := false }
      | some _ => { result := seqStep.1, seen_sequences := seqStep.2, raised := true }
      | none =>
        { result := check_command seqStep.1 i entry, seen_sequences := seqStep.2,
          raised := false }

/-- `MergerValidator._validate_apl_entries`: fold the loop body over the
entries, then (unless an exception was raised) the closing
`add_check(len(result.errors) == 0, "APL entries validation")`.  The `Bool`
reports whether an exception propagated. -/
def validate_apl_fold (st : AplState) (l : List (Nat × Record)) : AplState :=
  l.foldl (fun st p => validate_apl_entry st p.1 p.2) st

def validate_apl_entries (r : ValidationResult) (entries : List Record) :
    ValidationResult × Bool :=
  let st := validate_apl_fold { result := r } entries.enum
  if st.raised then (st.result, true)
  else (add_check st.result st.result.errors.isEmpty
    (some "APL entries validation".toList), false)

/-- `MergerValidator.validate_apl_file` applied to an already-loaded JSON
container `{'entries': entries}` (with no top-level `timestamp`, `user` or
`summary` keys): the `add_check(True, ...)`, the `add_info`, the entries
walk, and — when the walk raised — the `except` branch's critical error
(whose message text is not modelled beyond its prefix).  The result state
after the two pre-walk calls is `apl_initial_result`. -/
def apl_initial_result (entries : List Record) : ValidationResult :=
  add_info (add_check {} true (some "JSON structure valid".toList))
    ("Found ".toList ++ natStr entries.length ++ " entries".toList)

/-- See the comment above `apl_initial_result`. -/
def validate_apl (entries : List Record) : ValidationResult :=
  let step := validate_apl_entries (apl_initial_result entries) entries
  if step.2 then add_error step.1 "Validation error: ".toList true else step.1

/-! ## SortingStrategy (src/lib/sorter.py) -/

/-- A token of a natural sort key: an integer run, a non-digit run, or the
`float('inf')` marker used for `None` identifiers. -/
inductive NTok where
  | num (n : Nat)
  | str (s : Str)
  | inf
deriving DecidableEq

/-- Build one token from a run of characters. -/
def mkTok (isNum : Bool) (run : Str) : NTok :=
  if isNum then .num (digitsVal run) else .str run

/-- Split a string into maximal digit / non-digit runs
(`re.split(r'(\d+)', text)` keeping captured groups and dropping empty
parts), carrying the current run as state. -/
def splitRunsAux : Str → Option (Bool × Str) → List NTok
  | [], none => []
  | [], some (isNum, run) => [mkTok isNum run.reverse]
  | c :: cs, none => splitRunsAux cs (some (c.isDigit, [c]))
  | c :: cs, some (isNum, run) =>
    if c.isDigit = isNum then splitRunsAux cs (some (isNum, c :: run))
    else mkTok isNum run.reverse :: splitRunsAux cs (some (c.isDigit, [c]))

/-- `SortingStrategy.natural_sort_key`.  The argument is `none` for Python
`None` (which short-circuits to `[float('inf'), '']`); otherwise the value
is stringified, stripped and lower-cased, then split into runs. -/
def natural_sort_key : Option PyVal → List NTok
  | none => [.inf, .str []]
  | some v =>
    let text := pyLower (pyStrip (pyValStr v))
    let parts := splitRunsAux text none
    if parts.isEmpty then [.str []] else parts

/-- Code-point lexicographic comparison of strings (Python `str` `<`). -/
def strCmp : Str → Str → Ordering
  | [], [] => .eq
  | [], _ :: _ => .lt
  | _ :: _, [] => .gt
  | a :: as, b :: bs =>
    if a < b then .lt else if b < a then .gt else strCmp as bs

/-- Comparison of two key tokens; `none` models the `TypeError` Python
raises when ordering an `int` (or `float('inf')`) against a `str`. -/
def tokCmp : NTok → NTok → Option Ordering
  | .num a, .num b => some (if a < b then .lt else if b < a then .gt else .eq)
  | .str a, .str b => some (strCmp a b)
  | .inf, .inf => some .eq
  | .inf, .num _ => some .gt
  | .num _, .inf => some .lt
  | _, _ => none

/-- Python list comparison on keys: skip equal elements, order by the first
differing pair (raising when that pair is unordered), fall back to length. -/
def keyCmp : List NTok → List NTok → Option Ordering
  | [], [] => some .eq
  | [], _ :: _ => some .lt
  | _ :: _, [] => some .gt
  | a :: as, b :: bs =>
    match tokCmp a b with
    | none => none
    | some .eq => keyCmp as bs
    | some o => some o

/-- `a.get('asset_id', '')`: the identifier used for ordering, a *missing*
key defaulting to `''`. -/
def get_asset_id (r : Record) : PyVal :=
  (pyGet r "asset_id".toList).getD (.str [])

/-- `SortingStrategy.asset_id_comparator`; `none` models a raised
`TypeError`.  `a.get('asset_id', '')` defaults a *missing* key to `''`, and
`if not a_id` then treats every falsy id (`None`, `''`, `0`) alike. -/
def asset_id_comparator (a b : Record) : Option Int :=
  let a_id := get_asset_id a
  let b_id := get_asset_id b
  if pyFalsy a_id && pyFalsy b_id then some 0
  else if pyFalsy a_id then some 1
  else if pyFalsy b_id then some (-1)
  else
    match keyCmp (natural_sort_key (some a_id)) (natural_sort_key (some b_id)) with
    | none => none
    | some .lt => some (-1)
    | some .gt => some 1
    | some .eq => some 0

/-- `SortingStrategy.FIELD_PRIORITY`. -/
def FIELD_PRIORITY : List (Str × Nat) :=
  [("asset_id".toList, 1), ("ip_address".toList, 2), ("hostname".toList, 3),
   ("serial_number".toList, 4), ("model".toList, 5), ("manufacturer".toList, 6),
   ("location".toList, 7), ("department".toList, 8), ("status".toList, 9),
   ("last_updated".toList, 90), ("created_date".toList, 91), ("notes".toList, 99)]

/-- `field_sort_key` inside `sort_asset_fields`: priority then lower-cased
name. -/
def field_sort_key (f : Str) : Nat × Str :=
  (((FIELD_PRIORITY.find? (fun p => p.1 = pyLower f)).map (·.2)).getD 50, pyLower f)

/-- `≤` on field sort keys (lexicographic on priority then name). -/
def fieldKeyLe (x y : Nat × Str) : Bool :=
  x.1 < y.1 || (x.1 = y.1 && strCmp x.2 y.2 ≠ .gt)

/-- Stable insertion into a sorted list under a total boolean `≤`
(a later element goes after the equal elements already placed, matching
Python's stable `sorted`). -/
def insertLe (le : α → α → Bool) (x : α) : List α → List α
  | [] => [x]
  | y :: ys => if le y x then y :: insertLe le x ys else x :: y :: ys

/-- Stable sort under a total boolean `≤` (insertion sort, processed left
to right; agrees with Python's stable `sorted` for any total preorder). -/
def sortLe (le : α → α → Bool) (l : List α) : List α :=
  l.foldl (fun acc x => insertLe le x acc) []

/-- `SortingStrategy.sort_asset_fields`: reorder a record's fields by
priority-then-name.  (Keys are strings by construction, so the
`field.lower()` calls cannot raise here.) -/
def sort_asset_fields (asset : Record) : Record :=
  sortLe (fun p q => fieldKeyLe (field_sort_key p.1) (field_sort_key q.1)) asset

/-- Stable insertion under a partial comparator (`cmp_to_key`-style);
`none` propagates a comparison's `TypeError`. -/
def insertCmp (cmp : α → α → Option Int) (x : α) : List α → Option (List α)
  | [] => some [x]
  | y :: ys =>
    match cmp x y with
    | none => none
    | some c =>
      if c < 0 then some (x :: y :: ys)
      else (insertCmp cmp x ys).map (fun l => y :: l)

/-- Insert the elements of the second list one at a time into the
accumulated sorted list, aborting on the first raising comparison. -/
def sortCmpAux (cmp : α → α → Option Int) : List α → List α → Option (List α)
  | acc, [] => some acc
  | acc, x :: xs =>
    match insertCmp cmp x acc with
    | none => none
    | some acc2 => sortCmpAux cmp acc2 xs

/-- `sorted(l, key=cmp_to_key(cmp))`, as a stable insertion sort in the
`Option` monad.  On success this agrees with Python's stable adaptive
mergesort; a raising comparison makes either algorithm abort with an
exception, which is the only failure behavior the proofs below rely on. -/
def sortCmp (cmp : α → α → Option Int) (l : List α) : Option (List α) :=
  sortCmpAux cmp [] l

/-- `SortingStrategy.sort_assets` (with the default `reverse=False`): sort
by `asset_id_comparator`, then reorder each asset's fields; on any raised
comparison the `except` branch returns the original list unchanged. -/
def sort_assets (assets : List Record) : List Record :=
  match sortCmp asset_id_comparator assets with
  | some sorted_assets => sorted_assets.map sort_asset_fields
  | none => assets

/-- Is `items[i].get('asset_id')` Python `None` (key absent, or present and
`None`)? -/
def idIsNone (r : Record) : Bool :=
  match pyGet r "asset_id".toList with
  | none => true
  | some .pynone => true
  | some _ => false

/-- `SortingStrategy.validate_sort_order` (with the default
`key_field='asset_id'`); `none` models the `TypeError` raised when two
adjacent natural keys are unorderable. -/
def validate_sort_order : List Record → Option Bool
  | [] => some true
  | [_] => some true
  | a :: b :: rest =>
    let pNone := idIsNone a
    let cNone := idIsNone b
    if pNone && !cNone then some false
    else if pNone || cNone then validate_sort_order (b :: rest)
    else
      let prev_key := natural_sort_key (some (.str (pyValStr ((pyGet a "asset_id".toList).getD .pynone))))
      let curr_key := natural_sort_key (some (.str (pyValStr ((pyGet b "asset_id".toList).getD .pynone))))
      match keyCmp prev_key curr_key with
      | none => none
      | some .gt => some false
      | _ => validate_sort_order (b :: rest)

/-! ## Claim-side auxiliary definitions -/

/-- The specification's similarity formula, written from the spec's words:
`(compared_fields - differing_fields) / compared_fields * 100`, rounded to
2 decimals, expressed in hundredths of a percent (for comparison with the
implementation's `similarity_score_x100`). -/
def spec_similarity_score_x100 (compared_fields differing_fields : Nat) : Int :=
  simScoreX100 ((compared_fields : Int) - (differing_fields : Int)) compared_fields

/-- Number of entries of a change list carrying the given `asset_id` and a
`create` operation (the quantity the applier-input contract is about). -/
def create_count (entries : List Record) (aid : Str) : Nat :=
  (entries.filter (fun e =>
    pyGet e "asset_id".toList = some (.str aid) &&
    pyGet e "operation".toList = some (.str "create".toList))).length

/-- No two entries of the list carry the same sequence number. -/
def DupSeqFree (entries : List Record) : Prop :=
  List.Pairwise
    (fun e1 e2 => ∀ s, pyGet e1 "sequence".toList = some s →
      pyGet e2 "sequence".toList ≠ some s) entries

/-- Every entry's `timestamp` value, when present, is a string (so the
`.replace` call in `_validate_timestamp` cannot raise). -/
def TimestampsAreStrings (entries : List Record) : Prop :=
  ∀ e ∈ entries, ∀ v, pyGet e "timestamp".toList = some v → ∃ s, v = .str s

/-- `'\n'` does not occur in the string. -/
def NoLF (s : Str) : Prop := '\n' ∉ s

/-- The string is unchanged by `strip()` (no leading or trailing
whitespace). -/
def StripStable (s : Str) : Prop := pyStrip s = s

/-- The projection of a written document difference to the parsed-dict
shape: all three keys assigned, values as the written (stringified) text. -/
def embDiff (d : DocDiff) : PDiff :=
  { field_name := some d.field_name
    zabbix_value := some (pyValStr d.zabbix_value)
    topdesk_value := some (pyValStr d.topdesk_value) }

/-- A written value string survives the quoted round trip: no newline, and
no double quote at either end (the parser's `strip('"')` would eat it). -/
def ValueOk (s : Str) : Prop :=
  '\n' ∉ s ∧ s.head? ≠ some '"' ∧ s.getLast? ≠ some '"' 

/-- Conditions under which one document difference round-trips exactly. -/
def DocDiffOk (d : DocDiff) : Prop :=
  pyStrip d.field_name = d.field_name ∧ '\n' ∉ d.field_name ∧
  ValueOk (pyValStr d.zabbix_value) ∧ ValueOk (pyValStr d.topdesk_value)

/-- An asset's `asset_id` is absent, `None`, or a non-empty string (the
shape under which the sorter and `validate_sort_order` agree about
null-last ordering). -/
def goodId (r : Record) : Bool :=
  match pyGet r "asset_id".toList with
  | none => true
  | some .pynone => true
  | some (.str s) => !s.isEmpty
  | some _ => false

end Merger


namespace Merger

/-! ## Helper lemmas: ValidationResult status dynamics -/

theorem add_check_status (r : ValidationResult) (p : Bool) (m : Option Str) :
    (add_check r p m).status = r.status := by
  cases p with
  | true => rfl
  | false =>
    cases m with
    | none => rfl
    | some s => by_cases h : s = [] <;> simp [add_check, h]

theorem add_info_status (r : ValidationResult) (m : Str) :
    (add_info r m).status = r.status := rfl

theorem add_warning_status (r : ValidationResult) (m : Str) :
    (add_warning r m).status = if r.status = .PASSED then .PASSED_WITH_WARNINGS else r.status := rfl

theorem add_error_status_true (r : ValidationResult) (m : Str) :
    (add_error r m true).status = .FAILED := rfl

theorem add_error_status_false (r : ValidationResult) (m : Str) :
    (add_error r m false).status =
      if r.status = .PASSED || r.status = .PASSED_WITH_WARNINGS then .FAILED
      else r.status := rfl

/-- The three statuses reachable within a result's lifetime. -/
def Reach3 (s : ValidationStatus) : Prop :=
  s = .PASSED ∨ s = .PASSED_WITH_WARNINGS ∨ s = .FAILED

theorem applyCall_reach3 (r : ValidationResult) (c : VCall) (h : Reach3 r.status) :
    Reach3 (applyCall r c).status := by
  cases c with
  | check p m => rw [applyCall, add_check_status]; exact h
  | info m => rw [applyCall, add_info_status]; exact h
  | warning m =>
    rw [applyCall, add_warning_status]
    split
    · exact Or.inr (Or.inl rfl)
    · exact h
  | error m crit =>
    cases crit with
    | true => exact Or.inr (Or.inr rfl)
    | false =>
      rw [applyCall, add_error_status_false]
      split
      · exact Or.inr (Or.inr rfl)
      · exact h

theorem foldl_applyCall_reach3 (cs : List VCall) (r : ValidationResult)
    (h : Reach3 r.status) : Reach3 (cs.foldl applyCall r).status := by
  induction cs generalizing r with
  | nil => exact h
  | cons c cs ih => exact ih _ (applyCall_reach3 r c h)

theorem runCalls_reach3 (cs : List VCall) : Reach3 (runCalls cs).status :=
  foldl_applyCall_reach3 cs {} (Or.inl rfl)

theorem applyCall_failed (r : ValidationResult) (c : VCall)
    (h : r.status = .FAILED) : (applyCall r c).status = .FAILED := by
  cases c with
  | check p m => rw [applyCall, add_check_status]; exact h
  | info m => rw [applyCall, add_info_status]; exact h
  | warning m => rw [applyCall, add_warning_status]; simp [h]
  | error m crit =>
    cases crit with
    | true => rfl
    | false => rw [applyCall, add_error_status_false]; simp [h]

theorem applyCall_no_unwarn (r : ValidationResult) (c : VCall)
    (h : r.status = .PASSED_WITH_WARNINGS) : (applyCall r c).status ≠ .PASSED := by
  cases c with
  | check p m => rw [applyCall, add_check_status, h]; simp
  | info m => rw [applyCall, add_info_status, h]; simp
  | warning m => rw [applyCall, add_warning_status]; simp [h]
  | error m crit =>
    cases crit with
    | true => rw [applyCall]; rw [add_error_status_true]; simp
    | false => rw [applyCall, add_error_status_false]; simp [h]

/-- C10: `add_check(passed, message)` touches only `checks_performed`,
`passed_checks` and — when the check failed and a truthy message was given —
`errors`; it never changes `status`, so a result that only ever received
`add_check` calls (even all-failing ones) still reports `PASSED`. -/
theorem add_check_frame_and_status_passed :
    (∀ (r : ValidationResult) (passed : Bool) (message : Option Str),
      (add_check r passed message).status = r.status ∧
      (add_check r passed message).warnings = r.warnings ∧
      (add_check r passed message).critical_errors = r.critical_errors ∧
      (add_check r passed message).info_messages = r.info_messages ∧
      (add_check r passed message).checks_performed = r.checks_performed + 1 ∧
      (passed = true →
        (add_check r passed message).passed_checks = r.passed_checks + 1 ∧
        (add_check r passed message).errors = r.errors) ∧
      (passed = false →
        (add_check r passed message).passed_checks = r.passed_checks ∧
        ((add_check r passed message).errors = r.errors ∨
          ∃ m, message = some m ∧
            (add_check r passed message).errors = r.errors ++ [m]))) ∧
    (∀ checks : List (Bool × Option Str),
      (runCalls (checks.map (fun p => .check p.1 p.2))).status = .PASSED) := by
  constructor
  · intro r passed message
    refine ⟨add_check_status r passed message, ?_⟩
    unfold add_check
    cases passed with
    | true => simp
    | false =>
      cases message with
      | none => simp
      | some s =>
        by_cases h : s.isEmpty <;> simp [h]
  · intro checks
    have aux : ∀ (cs : List (Bool × Option Str)) (r : ValidationResult),
        ((cs.map (fun p => VCall.check p.1 p.2)).foldl applyCall r).status = r.status := by
      intro cs
      induction cs with
      | nil => intro r; rfl
      | cons c cs ih =>
        intro r
        simp only [List.map_cons, List.foldl_cons]
        rw [ih, applyCall, add_check_status]
    exact aux checks {}

/-- C10 witness: the frame conditions instantiated at a concrete failing
check on a concrete result. -/
theorem add_check_frame_and_status_passed_witness :
    (add_check {} false (some "m".toList)).status = ValidationStatus.PASSED ∧
    (add_check {} false (some "m".toList)).errors = [] ++ ["m".toList] := by
  have h := add_check_frame_and_status_passed.1 {} false (some "m".toList)
  refine ⟨h.1, ?_⟩
  rcases (h.2.2.2.2.2.2 rfl).2 with h' | ⟨m, hm, h'⟩
  · exact absurd h' (by decide)
  · cases hm; exact h'

/-- C3: the `ValidationResult` status state machine — starts `PASSED`;
`add_warning` escalates `PASSED` to `PASSED_WITH_WARNINGS` and is a no-op on
every other status; a non-critical `add_error` moves any reachable
non-`FAILED` status to `FAILED`; a critical `add_error` sets `FAILED`
unconditionally; and over every call sequence the status never leaves
`FAILED` and never returns from `PASSED_WITH_WARNINGS` to `PASSED`. -/
theorem validation_status_state_machine :
    (({} : ValidationResult).status = .PASSED) ∧
    (∀ (r : ValidationResult) (m : Str), r.status = .PASSED →
      (add_warning r m).status = .PASSED_WITH_WARNINGS) ∧
    (∀ (r : ValidationResult) (m : Str), r.status ≠ .PASSED →
      (add_warning r m).status = r.status) ∧
    (∀ (cs : List VCall) (m : Str), (runCalls cs).status ≠ .FAILED →
      (add_error (runCalls cs) m false).status = .FAILED) ∧
    (∀ (r : ValidationResult) (m : Str), (add_error r m true).status = .FAILED) ∧
    (∀ (cs : List VCall) (c : VCall), (runCalls cs).status = .FAILED →
      (runCalls (cs ++ [c])).status = .FAILED) ∧
    (∀ (cs : List VCall) (c : VCall), (runCalls cs).status = .PASSED_WITH_WARNINGS →
      (runCalls (cs ++ [c])).status ≠ .PASSED) := by
  refine ⟨rfl, ?_, ?_, ?_, ?_, ?_, ?_⟩
  · intro r m h; rw [add_warning_status]; simp [h]
  · intro r m h; rw [add_warning_status]; simp [h]
  · intro cs m h
    rw [add_error_status_false]
    rcases runCalls_reach3 cs with h' | h' | h' <;> simp [h'] at h ⊢
  · intro r m; exact add_error_status_true r m
  · intro cs c h
    have : runCalls (cs ++ [c]) = applyCall (runCalls cs) c := by
      simp [runCalls, List.foldl_append]
    rw [this]; exact applyCall_failed _ c h
  · intro cs c h
    have : runCalls (cs ++ [c]) = applyCall (runCalls cs) c := by
      simp [runCalls, List.foldl_append]
    rw [this]; exact applyCall_no_unwarn _ c h

/-- C3 witness: the state machine instantiated on concrete calls — a
warning escalates a fresh result, a non-critical error fails it. -/
theorem validation_status_state_machine_witness :
    (({} : ValidationResult).status = .PASSED) ∧
    (add_warning {} "w".toList).status = .PASSED_WITH_WARNINGS ∧
    (add_error (runCalls [.warning "w".toList]) "e".toList false).status = .FAILED ∧
    (runCalls ([.error "e".toList false] ++ [.warning "w".toList])).status = .FAILED := by
  refine ⟨validation_status_state_machine.1,
    validation_status_state_machine.2.1 {} "w".toList rfl,
    validation_status_state_machine.2.2.2.1 [.warning "w".toList] "e".toList (by decide),
    validation_status_state_machine.2.2.2.2.2.1 [.error "e".toList false]
      (.warning "w".toList) (by decide)⟩

end Merger

namespace Merger

/-! ## Helper: fraction comparison agrees with rational tolerance -/

theorem Frac.absSubLe_iff (a b tol : Frac) (ha : 0 < a.den) (hb : 0 < b.den)
    (ht : 0 < tol.den) :
    (a.absSubLe b tol = true) ↔ |a.val - b.val| ≤ tol.val := by
  have haQ : (0 : Rat) < (a.den : Rat) := by exact_mod_cast ha
  have hbQ : (0 : Rat) < (b.den : Rat) := by exact_mod_cast hb
  have htQ : (0 : Rat) < (tol.den : Rat) := by exact_mod_cast ht
  unfold Frac.absSubLe Frac.val
  rw [decide_eq_true_eq]
  rw [div_sub_div _ _ (ne_of_gt haQ) (ne_of_gt hbQ), abs_div,
    abs_of_pos (mul_pos haQ hbQ), div_le_div_iff₀ (mul_pos haQ hbQ) htQ,
    mul_comm ((a.den : Rat)) ((b.num : Rat))]
  constructor
  · intro h; exact_mod_cast h
  · intro h; exact_mod_cast h

/-- C5: `compare_values` — two nulls are equal; exactly one null is not
equal; when both values parse as numbers, equality holds iff
`|a - b| ≤ tolerance` (so `"8"` equals `"8.0"`, and the default tolerance
is `0.01`); and only when a numeric parse fails does it fall back to
normalized string equality. -/
theorem compare_values_cases (cfg : DifferConfig) (htol : 0 < cfg.tolerance.den) :
    (compare_values cfg .pynone .pynone = true) ∧
    (∀ v : PyVal, v ≠ .pynone →
      compare_values cfg .pynone v = false ∧ compare_values cfg v .pynone = false) ∧
    (∀ (a b : PyVal) (x y : Frac), a ≠ .pynone → b ≠ .pynone →
      pyFloatVal a = some x → pyFloatVal b = some y → 0 < x.den → 0 < y.den →
      (compare_values cfg a b = true ↔ |x.val - y.val| ≤ cfg.tolerance.val)) ∧
    (∀ a b : PyVal, a ≠ .pynone → b ≠ .pynone →
      (pyFloatVal a = none ∨ pyFloatVal b = none) →
      (compare_values cfg a b = true ↔ normalize_value cfg a = normalize_value cfg b)) ∧
    (({} : DifferConfig).tolerance.val = 1 / 100 ∧
      compare_values {} (.str "8".toList) (.str "8.0".toList) = true) := by
  refine ⟨rfl, ?_, ?_, ?_, ?_, ?_⟩
  · intro v hv
    constructor <;> simp [compare_values, hv]
  · intro a b x y ha hb hx hy hxd hyd
    unfold compare_values
    rw [if_neg (by simp [ha]), if_neg (by simp [ha, hb])]
    rw [hx, hy]
    exact Frac.absSubLe_iff x y cfg.tolerance hxd hyd htol
  · intro a b ha hb hor
    unfold compare_values
    rw [if_neg (by simp [ha]), if_neg (by simp [ha, hb])]
    rcases hor with h | h
    · rw [h]
      cases pyFloatVal b <;> simp
    · rw [h]
      cases pyFloatVal a <;> simp
  · norm_num [Frac.val]
  · decide

/-- C5 witness: the numeric branch instantiated at `"8"` vs `"8.0"`
(`8/1` and `80/10`, within the default tolerance `1/100`), and the
one-sided-null case at a concrete value. -/
theorem compare_values_cases_witness :
    (compare_values {} (.str "8".toList) (.str "8.0".toList) = true ↔
      |Frac.val ⟨8, 1⟩ - Frac.val ⟨80, 10⟩| ≤ Frac.val ⟨1, 100⟩) ∧
    compare_values {} .pynone (.str "x".toList) = false := by
  have h := compare_values_cases {} (by decide)
  exact ⟨h.2.2.1 (.str "8".toList) (.str "8.0".toList) ⟨8, 1⟩ ⟨80, 10⟩
      (by decide) (by decide) (by decide) (by decide) (by decide) (by decide),
    (h.2.1 (.str "x".toList) (by decide)).1⟩

/-! ## Helper lemmas: comparator loop counters (C6) -/

theorem compare_assets_step_counts (cfg : DifferConfig) (zd td : DataSet)
    (acc : List (Str × List FieldDiff) × DifferStats) (asset_id : Str) :
    ((compare_assets_step cfg zd td acc asset_id).2.matched_assets
        + (compare_assets_step cfg zd td acc asset_id).2.zabbix_only
        + (compare_assets_step cfg zd td acc asset_id).2.topdesk_only
      = acc.2.matched_assets + acc.2.zabbix_only + acc.2.topdesk_only + 1) ∧
    ((compare_assets_step cfg zd td acc asset_id).2.total_assets_processed
      = acc.2.total_assets_processed) := by
  unfold compare_assets_step
  dsimp only
  repeat' split
  all_goals simp
  all_goals omega

theorem foldl_compare_assets_counts (cfg : DifferConfig) (zd td : DataSet)
    (ids : List Str) :
    ∀ acc : List (Str × List FieldDiff) × DifferStats,
      ((ids.foldl (compare_assets_step cfg zd td) acc).2.matched_assets
          + (ids.foldl (compare_assets_step cfg zd td) acc).2.zabbix_only
          + (ids.foldl (compare_assets_step cfg zd td) acc).2.topdesk_only
        = acc.2.matched_assets + acc.2.zabbix_only + acc.2.topdesk_only + ids.length) ∧
      ((ids.foldl (compare_assets_step cfg zd td) acc).2.total_assets_processed
        = acc.2.total_assets_processed) := by
  induction ids with
  | nil => intro acc; simp
  | cons i ids ih =>
    intro acc
    simp only [List.foldl_cons, List.length_cons]
    have h1 := compare_assets_step_counts cfg zd td acc i
    have h2 := ih (compare_assets_step cfg zd td acc i)
    exact ⟨by omega, by rw [h2.2, h1.2]⟩

/-- C6: after `compare_assets`, the `matched_assets`, `zabbix_only` and
`topdesk_only` counters sum to `total_assets_processed`, which is the
number of distinct identifiers in the union of the two key sets (each
distinct identifier increments exactly one of the three). -/
theorem compare_assets_counter_invariant (cfg : DifferConfig) (zd td : DataSet) :
    ((compare_assets cfg zd td).2.matched_assets
        + (compare_assets cfg zd td).2.zabbix_only
        + (compare_assets cfg zd td).2.topdesk_only
      = (compare_assets cfg zd td).2.total_assets_processed) ∧
    ((compare_assets cfg zd td).2.total_assets_processed
      = ((zd.map (·.1) ++ td.map (·.1)).dedup).length) := by
  unfold compare_assets
  have h := foldl_compare_assets_counts cfg zd td
    ((zd.map (·.1) ++ td.map (·.1)).dedup)
    ([], { total_assets_processed := ((zd.map (·.1) ++ td.map (·.1)).dedup).length })
  refine ⟨?_, h.2⟩
  rw [h.1, h.2]
  simp

/-- C8: when a comparison raises during sorting, `sort_assets` returns the
original input sequence unchanged (and, being total, never propagates the
exception). -/
theorem sort_assets_returns_input_on_failure (assets : List Record)
    (h : sortCmp asset_id_comparator assets = none) :
    sort_assets assets = assets := by
  unfold sort_assets
  rw [h]

/-- C8 witness: `['1a', 'aa']` — the key of `'1a'` starts with an integer
token, the key of `'aa'` with a string token, so the comparison raises and
the input comes back unchanged. -/
theorem sort_assets_returns_input_on_failure_witness :
    sortCmp asset_id_comparator
        [[("asset_id".toList, PyVal.str "1a".toList)],
         [("asset_id".toList, PyVal.str "aa".toList)]] = none ∧
    sort_assets
        [[("asset_id".toList, PyVal.str "1a".toList)],
         [("asset_id".toList, PyVal.str "aa".toList)]]
      = [[("asset_id".toList, PyVal.str "1a".toList)],
         [("asset_id".toList, PyVal.str "aa".toList)]] :=
  ⟨by decide, sort_assets_returns_input_on_failure _ (by decide)⟩

/-- C7 counterexample: the claim says a null or absent identifier compares
strictly after **every** non-null identifier, but against the non-null
empty-string identifier the comparator returns 0 (equal), not 1 (after):
`asset_id_comparator({}, {'asset_id': ''}) = 0`. -/
theorem asset_id_comparator_empty_string_counterexample :
    asset_id_comparator [] [("asset_id".toList, PyVal.str [])] = some 0 ∧
    some (0 : Int) ≠ some (1 : Int) :=
  ⟨by decide, by decide⟩

/-- C7 (amended): `natural_sort_key` splits into integer-valued digit runs
and lower-cased non-digit runs, giving `asset2 < asset10 < asset100`; and
in `asset_id_comparator` every *falsy* identifier (null, absent, or empty
string) sorts strictly after every truthy identifier, two falsy
identifiers comparing equal. -/
theorem natural_sort_key_order_and_null_last :
    (natural_sort_key (some (.str "Asset10b".toList))
      = [.str "asset".toList, .num 10, .str "b".toList]) ∧
    (keyCmp (natural_sort_key (some (.str "asset2".toList)))
      (natural_sort_key (some (.str "asset10".toList))) = some .lt) ∧
    (keyCmp (natural_sort_key (some (.str "asset10".toList)))
      (natural_sort_key (some (.str "asset100".toList))) = some .lt) ∧
    (∀ a b : Record,
      pyFalsy (get_asset_id a) = true → pyFalsy (get_asset_id b) = true →
      asset_id_comparator a b = some 0) ∧
    (∀ a b : Record,
      pyFalsy (get_asset_id a) = true → pyFalsy (get_asset_id b) = false →
      asset_id_comparator a b = some 1) ∧
    (∀ a b : Record,
      pyFalsy (get_asset_id a) = false → pyFalsy (get_asset_id b) = true →
      asset_id_comparator a b = some (-1)) := by
  refine ⟨by decide, by decide, by decide, ?_, ?_, ?_⟩
  · intro a b h1 h2
    unfold asset_id_comparator
    simp [h1, h2]
  · intro a b h1 h2
    unfold asset_id_comparator
    simp [h1, h2]
  · intro a b h1 h2
    unfold asset_id_comparator
    simp [h1, h2]

/-- C7 witness: a record with a `None` identifier compares after a record
with identifier `'a'`. -/
theorem natural_sort_key_order_and_null_last_witness :
    asset_id_comparator [("asset_id".toList, PyVal.pynone)]
      [("asset_id".toList, PyVal.str "a".toList)] = some 1 :=
  natural_sort_key_order_and_null_last.2.2.2.2.1
    [("asset_id".toList, PyVal.pynone)] [("asset_id".toList, PyVal.str "a".toList)]
    (by decide) (by decide)

/-- C1: the code computes `total_fields` from the *differences* list only,
so for a matched asset every difference document gets similarity score 0 —
comparing `{ip: 1.1.1.1, os: linux}` against `{ip: 1.1.1.2, os: linux}`
(two compared fields, one differing) yields exactly one `value_mismatch`
on `ip` and a written score of `0.0`, where the specification's formula
`(compared - differing) / compared * 100` demands `50.0` (scores are in
hundredths here: `0` vs `5000`).  Single-system documents indeed carry no
score. -/
theorem similarity_score_diverges_from_spec :
    ((compare_matched_assets {}
        [("ip".toList, .str "1.1.1.1".toList), ("os".toList, .str "linux".toList)]
        [("ip".toList, .str "1.1.1.2".toList), ("os".toList, .str "linux".toList)]).map
      (fun d => (d.field_name, d.difference_type))
      = [("ip".toList, "value_mismatch".toList)]) ∧
    ((difContent "A".toList "2025-01-01T00:00:00".toList
        (compare_matched_assets {}
          [("ip".toList, .str "1.1.1.1".toList), ("os".toList, .str "linux".toList)]
          [("ip".toList, .str "1.1.1.2".toList), ("os".toList, .str "linux".toList)])).similarity_score_x100
      = some 0) ∧
    spec_similarity_score_x100 2 1 = 5000 ∧
    ((difContent "B".toList "2025-01-01T00:00:00".toList
        (handle_single_system_asset {} [("os".toList, .str "Linux".toList)]
          .topdesk)).similarity_score_x100 = none) := by
  refine ⟨by decide, by decide, by decide, by decide⟩

end Merger

namespace Merger

/-! ## Helper lemmas: APL validation fold (C4) -/

/-- `r'` has the errors of `r` plus possibly more appended (every
`ValidationResult` mutator only ever appends to `errors`). -/
def ErrExt (r r' : ValidationResult) : Prop :=
  ∃ t, r'.errors = r.errors ++ t

theorem errExt_refl (r : ValidationResult) : ErrExt r r := ⟨[], by simp⟩

theorem errExt_trans {r1 r2 r3 : ValidationResult} (h1 : ErrExt r1 r2)
    (h2 : ErrExt r2 r3) : ErrExt r1 r3 := by
  obtain ⟨t1, e1⟩ := h1
  obtain ⟨t2, e2⟩ := h2
  exact ⟨t1 ++ t2, by rw [e2, e1, List.append_assoc]⟩

theorem errExt_mem {r r' : ValidationResult} (h : ErrExt r r') {m : Str}
    (hm : m ∈ r.errors) : m ∈ r'.errors := by
  obtain ⟨t, e⟩ := h
  rw [e]
  exact List.mem_append_left t hm

theorem add_check_errExt (r : ValidationResult) (p : Bool) (m : Option Str) :
    ErrExt r (add_check r p m) := by
  cases p with
  | true => exact ⟨[], by simp [add_check]⟩
  | false =>
    cases m with
    | none => exact ⟨[], by simp [add_check]⟩
    | some s =>
      by_cases h : s = []
      · exact ⟨[], by simp [add_check, h]⟩
      · exact ⟨[s], by simp [add_check, h]⟩

theorem add_warning_errExt (r : ValidationResult) (m : Str) :
    ErrExt r (add_warning r m) := ⟨[], by simp [add_warning]⟩

theorem add_error_errExt (r : ValidationResult) (m : Str) (c : Bool) :
    ErrExt r (add_error r m c) := by
  cases c with
  | true => exact ⟨[], by simp [add_error]⟩
  | false => exact ⟨[m], by simp [add_error]⟩

theorem add_error_false_failed_of_reach3 (r : ValidationResult) (m : Str)
    (h : Reach3 r.status) : (add_error r m false).status = .FAILED := by
  rw [add_error_status_false]
  rcases h with h | h | h <;> simp [h]

theorem validate_timestamp_status_failed (r : ValidationResult) (ts ctx : Str)
    (h : r.status = .FAILED) : (validate_timestamp r ts ctx).status = .FAILED := by
  unfold validate_timestamp
  split
  · rw [add_check_status]; exact h
  · rw [add_error_status_false]; simp [h]

theorem validate_timestamp_reach3 (r : ValidationResult) (ts ctx : Str)
    (h : Reach3 r.status) : Reach3 (validate_timestamp r ts ctx).status := by
  unfold validate_timestamp
  split
  · rw [add_check_status]; exact h
  · rw [add_error_status_false]
    split
    · exact Or.inr (Or.inr rfl)
    · exact h

theorem validate_timestamp_errExt (r : ValidationResult) (ts ctx : Str) :
    ErrExt r (validate_timestamp r ts ctx) := by
  unfold validate_timestamp
  split
  · exact add_check_errExt r true _
  · exact add_error_errExt r _ false

theorem check_command_status_failed (r : ValidationResult) (i : Nat) (e : Record)
    (h : r.status = .FAILED) : (check_command r i e).status = .FAILED := by
  unfold check_command
  split
  · exact h
  · split
    · rw [add_error_status_false]; simp [h]
    · exact h
  · rw [add_error_status_false]; simp [h]

theorem check_command_reach3 (r : ValidationResult) (i : Nat) (e : Record)
    (h : Reach3 r.status) : Reach3 (check_command r i e).status := by
  unfold check_command
  split
  · exact h
  · split
    · rw [add_error_status_false]; split
      · exact Or.inr (Or.inr rfl)
      · exact h
    · exact h
  · rw [add_error_status_false]; split
    · exact Or.inr (Or.inr rfl)
    · exact h

theorem check_command_errExt (r : ValidationResult) (i : Nat) (e : Record) :
    ErrExt r (check_command r i e) := by
  unfold check_command
  split
  · exact errExt_refl r
  · split
    · exact add_error_errExt r _ false
    · exact errExt_refl r
  · exact add_error_errExt r _ false

theorem check_status_field_status_failed (r : ValidationResult) (i : Nat)
    (e : Record) (h : r.status = .FAILED) :
    (check_status_field r i e).status = .FAILED := by
  unfold check_status_field
  split
  · exact h
  · split
    · split
      · rw [add_warning_status]; simp [h]
      · exact h
    · split
      · rw [add_warning_status, add_error_status_false]; simp [h]
      · rw [add_error_status_false]; simp [h]

theorem check_status_field_reach3 (r : ValidationResult) (i : Nat) (e : Record)
    (h : Reach3 r.status) : Reach3 (check_status_field r i e).status := by
  unfold check_status_field
  split
  · exact h
  · split
    · split
      · rw [add_warning_status]
        split
        · exact Or.inr (Or.inl rfl)
        · exact h
      · exact h
    · split
      · rw [add_warning_status, add_error_status_false]
        split
        · split
          · exact Or.inr (Or.inl rfl)
          · exact Or.inr (Or.inr rfl)
        · split
          · exact Or.inr (Or.inl rfl)
          · exact h
      · rw [add_error_status_false]
        split
        · exact Or.inr (Or.inr rfl)
        · exact h

theorem check_status_field_errExt (r : ValidationResult) (i : Nat) (e : Record) :
    ErrExt r (check_status_field r i e) := by
  unfold check_status_field
  split
  · exact errExt_refl r
  · split
    · split
      · exact add_warning_errExt r _
      · exact errExt_refl r
    · split
      · exact errExt_trans (add_error_errExt r _ false) (add_warning_errExt _ _)
      · exact add_error_errExt r _ false

end Merger

namespace Merger

theorem check_sequence_field_snd_ext (r : ValidationResult) (i : Nat) (e : Record)
    (seen : List PyVal) : ∃ t, (check_sequence_field r i e seen).2 = seen ++ t := by
  unfold check_sequence_field
  split
  · exact ⟨[], by simp⟩
  · exact ⟨[_], rfl⟩

theorem check_sequence_field_snd_mem (r : ValidationResult) (i : Nat) (e : Record)
    (seen : List PyVal) (s : PyVal) (h : pyGet e "sequence".toList = some s) :
    s ∈ (check_sequence_field r i e seen).2 := by
  unfold check_sequence_field
  rw [h]
  simp

theorem check_sequence_field_status_failed (r : ValidationResult) (i : Nat)
    (e : Record) (seen : List PyVal) (h : r.status = .FAILED) :
    (check_sequence_field r i e seen).1.status = .FAILED := by
  unfold check_sequence_field
  split
  · exact h
  · dsimp only
    split
    · rw [add_error_status_false]; simp [h]
    · exact h

theorem check_sequence_field_reach3 (r : ValidationResult) (i : Nat) (e : Record)
    (seen : List PyVal) (h : Reach3 r.status) :
    Reach3 (check_sequence_field r i e seen).1.status := by
  unfold check_sequence_field
  split
  · exact h
  · dsimp only
    split
    · rw [add_error_status_false]
      split
      · exact Or.inr (Or.inr rfl)
      · exact h
    · exact h

theorem check_sequence_field_errExt (r : ValidationResult) (i : Nat) (e : Record)
    (seen : List PyVal) : ErrExt r (check_sequence_field r i e seen).1 := by
  unfold check_sequence_field
  split
  · exact errExt_refl r
  · dsimp only
    split
    · exact add_error_errExt r _ false
    · exact errExt_refl r

theorem check_sequence_field_fires (r : ValidationResult) (i : Nat) (e : Record)
    (seen : List PyVal) (s : PyVal) (h : pyGet e "sequence".toList = some s)
    (hm : s ∈ seen) (hr : Reach3 r.status) :
    (check_sequence_field r i e seen).1.status = .FAILED ∧
    dup_seq_msg i s ∈ (check_sequence_field r i e seen).1.errors := by
  unfold check_sequence_field
  rw [h]
  dsimp only
  rw [if_pos (by simpa using hm)]
  refine ⟨add_error_false_failed_of_reach3 r _ hr, ?_⟩
  simp [add_error]

end Merger

namespace Merger

/-- An APL fold state from which the final status is necessarily `FAILED`:
either an exception is pending or the result already failed. -/
def AplSink (st : AplState) : Prop :=
  st.raised = true ∨ st.result.status = .FAILED

theorem step_raised_eq (st : AplState) (i : Nat) (e : Record)
    (h : st.raised = true) : validate_apl_entry st i e = st := by
  unfold validate_apl_entry
  rw [if_pos h]

theorem not_sink_raised_false {st : AplState} (h : ¬ AplSink st) :
    st.raised = false := by
  cases hr : st.raised with
  | true => exact absurd (Or.inl hr) h
  | false => rfl

theorem step_sink (st : AplState) (i : Nat) (e : Record) (h : AplSink st) :
    AplSink (validate_apl_entry st i e) := by
  rcases h with h | h
  · rw [step_raised_eq st i e h]; exact Or.inl h
  · cases hr : st.raised with
    | true => rw [step_raised_eq st i e hr]; exact Or.inr h
    | false =>
      unfold validate_apl_entry
      rw [if_neg (by simp [hr])]
      split
      · right
        rw [add_error_status_false]
        simp [h]
      · split
        · right
          exact check_command_status_failed _ _ _
            (validate_timestamp_status_failed _ _ _
              (check_sequence_field_status_failed _ _ _ _
                (check_status_field_status_failed _ _ _ h)))
        · left; rfl
        · right
          exact check_command_status_failed _ _ _
            (check_sequence_field_status_failed _ _ _ _
              (check_status_field_status_failed _ _ _ h))

theorem step_reach3 (st : AplState) (i : Nat) (e : Record)
    (h : Reach3 st.result.status) :
    Reach3 (validate_apl_entry st i e).result.status := by
  cases hr : st.raised with
  | true => rw [step_raised_eq st i e hr]; exact h
  | false =>
    unfold validate_apl_entry
    rw [if_neg (by simp [hr])]
    split
    · rw [add_error_status_false]
      split
      · exact Or.inr (Or.inr rfl)
      · exact h
    · split
      · exact check_command_reach3 _ _ _
          (validate_timestamp_reach3 _ _ _
            (check_sequence_field_reach3 _ _ _ _ (check_status_field_reach3 _ _ _ h)))
      · exact check_sequence_field_reach3 _ _ _ _ (check_status_field_reach3 _ _ _ h)
      · exact check_command_reach3 _ _ _
          (check_sequence_field_reach3 _ _ _ _ (check_status_field_reach3 _ _ _ h))

theorem step_seen_ext (st : AplState) (i : Nat) (e : Record) :
    ∃ t, (validate_apl_entry st i e).seen_sequences = st.seen_sequences ++ t := by
  cases hr : st.raised with
  | true => rw [step_raised_eq st i e hr]; exact ⟨[], by simp⟩
  | false =>
    unfold validate_apl_entry
    rw [if_neg (by simp [hr])]
    split
    · exact ⟨[], by simp⟩
    · split
      · exact check_sequence_field_snd_ext _ _ _ _
      · exact check_sequence_field_snd_ext _ _ _ _
      · exact check_sequence_field_snd_ext _ _ _ _

theorem step_errExt (st : AplState) (i : Nat) (e : Record) :
    ErrExt st.result (validate_apl_entry st i e).result := by
  cases hr : st.raised with
  | true => rw [step_raised_eq st i e hr]; exact errExt_refl _
  | false =>
    unfold validate_apl_entry
    rw [if_neg (by simp [hr])]
    split
    · exact add_error_errExt _ _ false
    · split
      · exact errExt_trans (check_status_field_errExt _ _ _)
          (errExt_trans (check_sequence_field_errExt _ _ _ _)
            (errExt_trans (validate_timestamp_errExt _ _ _) (check_command_errExt _ _ _)))
      · exact errExt_trans (check_status_field_errExt _ _ _)
          (check_sequence_field_errExt _ _ _ _)
      · exact errExt_trans (check_status_field_errExt _ _ _)
          (errExt_trans (check_sequence_field_errExt _ _ _ _) (check_command_errExt _ _ _))

theorem step_fail_missing_aid (st : AplState) (i : Nat) (e : Record)
    (hr : st.raised = false) (ha : pyGet e "asset_id".toList = none)
    (h3 : Reach3 st.result.status) :
    (validate_apl_entry st i e).result.status = .FAILED := by
  unfold validate_apl_entry
  rw [if_neg (by simp [hr])]
  split
  · exact add_error_false_failed_of_reach3 _ _ h3
  · next v heq => rw [ha] at heq; exact absurd heq (by simp)

theorem step_seen_mem (st : AplState) (i : Nat) (e : Record) (s : PyVal)
    (hr : st.raised = false) (ha : pyGet e "asset_id".toList ≠ none)
    (hs : pyGet e "sequence".toList = some s) :
    s ∈ (validate_apl_entry st i e).seen_sequences := by
  unfold validate_apl_entry
  rw [if_neg (by simp [hr])]
  split
  · next heq => exact absurd heq ha
  · split
    · exact check_sequence_field_snd_mem _ _ _ _ s hs
    · exact check_sequence_field_snd_mem _ _ _ _ s hs
    · exact check_sequence_field_snd_mem _ _ _ _ s hs

theorem step_fires (st : AplState) (i : Nat) (e : Record) (s : PyVal)
    (hr : st.raised = false) (ha : pyGet e "asset_id".toList ≠ none)
    (hs : pyGet e "sequence".toList = some s) (hm : s ∈ st.seen_sequences)
    (h3 : Reach3 st.result.status) :
    (validate_apl_entry st i e).result.status = .FAILED ∧
    dup_seq_msg i s ∈ (validate_apl_entry st i e).result.errors := by
  unfold validate_apl_entry
  rw [if_neg (by simp [hr])]
  split
  · next heq => exact absurd heq ha
  · have hfire := check_sequence_field_fires (check_status_field st.result i e) i e
      st.seen_sequences s hs hm (check_status_field_reach3 _ _ _ h3)
    split
    · exact ⟨check_command_status_failed _ _ _
          (validate_timestamp_status_failed _ _ _ hfire.1),
        errExt_mem (errExt_trans (validate_timestamp_errExt _ _ _)
          (check_command_errExt _ _ _)) hfire.2⟩
    · exact hfire
    · exact ⟨check_command_status_failed _ _ _ hfire.1,
        errExt_mem (check_command_errExt _ _ _) hfire.2⟩

theorem step_raised_false (st : AplState) (i : Nat) (e : Record)
    (hr : st.raised = false)
    (hts : ∀ v, pyGet e "timestamp".toList = some v → ∃ s, v = .str s) :
    (validate_apl_entry st i e).raised = false := by
  unfold validate_apl_entry
  rw [if_neg (by simp [hr])]
  split
  · exact hr
  · split
    · rfl
    · next v hne heq =>
      obtain ⟨s, rfl⟩ := hts v heq
      exact absurd rfl (hne s)
    · rfl

end Merger

namespace Merger

theorem fold_cons_eq (st : AplState) (p : Nat × Record) (l : List (Nat × Record)) :
    validate_apl_fold st (p :: l)
      = validate_apl_fold (validate_apl_entry st p.1 p.2) l := rfl

theorem fold_append_eq (st : AplState) (l1 l2 : List (Nat × Record)) :
    validate_apl_fold st (l1 ++ l2)
      = validate_apl_fold (validate_apl_fold st l1) l2 := by
  simp [validate_apl_fold, List.foldl_append]

theorem fold_sink (l : List (Nat × Record)) :
    ∀ st : AplState, AplSink st → AplSink (validate_apl_fold st l) := by
  induction l with
  | nil => intro st h; exact h
  | cons p l ih =>
    intro st h
    rw [fold_cons_eq]
    exact ih _ (step_sink st p.1 p.2 h)

theorem fold_reach3 (l : List (Nat × Record)) :
    ∀ st : AplState, Reach3 st.result.status →
      Reach3 (validate_apl_fold st l).result.status := by
  induction l with
  | nil => intro st h; exact h
  | cons p l ih =>
    intro st h
    rw [fold_cons_eq]
    exact ih _ (step_reach3 st p.1 p.2 h)

theorem fold_seen_ext (l : List (Nat × Record)) :
    ∀ st : AplState, ∃ t,
      (validate_apl_fold st l).seen_sequences = st.seen_sequences ++ t := by
  induction l with
  | nil => intro st; exact ⟨[], by simp [validate_apl_fold]⟩
  | cons p l ih =>
    intro st
    rw [fold_cons_eq]
    obtain ⟨t1, h1⟩ := step_seen_ext st p.1 p.2
    obtain ⟨t2, h2⟩ := ih (validate_apl_entry st p.1 p.2)
    exact ⟨t1 ++ t2, by rw [h2, h1, List.append_assoc]⟩

theorem fold_errExt (l : List (Nat × Record)) :
    ∀ st : AplState, ErrExt st.result (validate_apl_fold st l).result := by
  induction l with
  | nil => intro st; exact errExt_refl _
  | cons p l ih =>
    intro st
    rw [fold_cons_eq]
    exact errExt_trans (step_errExt st p.1 p.2) (ih _)

theorem fold_raised_false (l : List (Nat × Record)) :
    ∀ st : AplState, st.raised = false →
      (∀ p ∈ l, ∀ v, pyGet p.2 "timestamp".toList = some v → ∃ s, v = .str s) →
      (validate_apl_fold st l).raised = false := by
  induction l with
  | nil => intro st h _; exact h
  | cons p l ih =>
    intro st h hts
    rw [fold_cons_eq]
    exact ih _ (step_raised_false st p.1 p.2 h (hts p (by simp)))
      (fun q hq => hts q (by simp [hq]))

/-- While the fold never reaches a sink, no sequence number already in
`seen_sequences` can occur in a remaining entry. -/
theorem fold_seen_no_dup (l : List (Nat × Record)) :
    ∀ st : AplState, Reach3 st.result.status →
      ¬ AplSink (validate_apl_fold st l) →
      ∀ s ∈ st.seen_sequences, ∀ p ∈ l, pyGet p.2 "sequence".toList ≠ some s := by
  induction l with
  | nil => intro st _ _ s _ p hp; exact absurd hp (by simp)
  | cons p l ih =>
    intro st hr3 hnf s hs q hq
    rw [fold_cons_eq] at hnf
    have hnsink : ¬ AplSink st := fun h =>
      hnf (fold_sink l _ (step_sink st p.1 p.2 h))
    have hraised := not_sink_raised_false hnsink
    rcases List.mem_cons.mp hq with rfl | hq'
    · intro hseq
      cases haid : pyGet q.2 "asset_id".toList with
      | none =>
        exact hnf (fold_sink l _ (Or.inr
          (step_fail_missing_aid st q.1 q.2 hraised haid hr3)))
      | some v =>
        exact hnf (fold_sink l _ (Or.inr
          (step_fires st q.1 q.2 s hraised (by simp only [haid]; simp) hseq hs hr3).1))
    · obtain ⟨t, hseen⟩ := step_seen_ext st p.1 p.2
      exact ih _ (step_reach3 st p.1 p.2 hr3) hnf s
        (by rw [hseen]; exact List.mem_append_left t hs) q hq'

end Merger

namespace Merger

theorem apl_initial_result_status (entries : List Record) :
    (apl_initial_result entries).status = .PASSED := rfl

/-- The initial fold state used by `validate_apl`. -/
def apl_initial_state (entries : List Record) : AplState :=
  { result := apl_initial_result entries }

theorem validate_apl_eq_fold (entries : List Record) :
    validate_apl entries =
      (let st := validate_apl_fold (apl_initial_state entries) entries.enum
       if st.raised then add_error st.result "Validation error: ".toList true
       else add_check st.result st.result.errors.isEmpty
         (some "APL entries validation".toList)) := by
  unfold validate_apl validate_apl_entries apl_initial_state
  dsimp only
  cases hb : (validate_apl_fold { result := apl_initial_result entries }
      entries.enum).raised <;> simp [hb]

theorem validate_apl_status_failed_of_sink (entries : List Record)
    (h : AplSink (validate_apl_fold (apl_initial_state entries) entries.enum)) :
    (validate_apl entries).status = .FAILED := by
  rw [validate_apl_eq_fold]
  dsimp only
  cases hb : (validate_apl_fold (apl_initial_state entries) entries.enum).raised with
  | true => simp [hb, add_error_status_true]
  | false =>
    rcases h with h | h
    · rw [hb] at h; exact absurd h (by simp)
    · simp only [hb, Bool.false_eq_true, if_false]
      rw [add_check_status]
      exact h

theorem validate_apl_errExt (entries : List Record) :
    ErrExt (validate_apl_fold (apl_initial_state entries) entries.enum).result
      (validate_apl entries) := by
  rw [validate_apl_eq_fold]
  dsimp only
  cases hb : (validate_apl_fold (apl_initial_state entries) entries.enum).raised with
  | true => simp only [hb, if_true]; exact add_error_errExt _ _ true
  | false =>
    simp only [hb, Bool.false_eq_true, if_false]
    exact add_check_errExt _ _ _

theorem mem_enumFrom_snd {α : Type _} :
    ∀ (l : List α) (n : Nat) (p : Nat × α), p ∈ l.enumFrom n → p.2 ∈ l := by
  intro l
  induction l with
  | nil => intro n p h; exact absurd h (by simp)
  | cons x xs ih =>
    intro n p h
    rw [List.enumFrom_cons] at h
    rcases List.mem_cons.mp h with rfl | h'
    · exact List.mem_cons_self _ _
    · exact List.mem_cons_of_mem _ (ih (n + 1) p h')

theorem pair_sublist_split {α : Type _} {a b : α} :
    ∀ {l : List α}, [a, b].Sublist l → ∃ p m q, l = p ++ a :: m ++ b :: q := by
  intro l h
  induction l with
  | nil => exact absurd h (by simp)
  | cons x xs ih =>
    cases h with
    | cons _ h' =>
      obtain ⟨p, m, q, hq⟩ := ih h'
      exact ⟨x :: p, m, q, by rw [hq]; rfl⟩
    | cons₂ _ h' =>
      obtain ⟨m, q, hq⟩ := List.append_of_mem (h'.subset (show b ∈ [b] by simp))
      exact ⟨[], m, q, by rw [hq]; rfl⟩

/-- The enumerated entries of `pre ++ e1 :: mid ++ e2 :: post`, decomposed
around the two distinguished entries. -/
theorem enum_two_split (pre mid post : List Record) (e1 e2 : Record) :
    (pre ++ e1 :: mid ++ e2 :: post).enum
      = pre.enumFrom 0 ++ (pre.length, e1) :: mid.enumFrom (pre.length + 1)
        ++ (pre.length + 1 + mid.length, e2)
          :: post.enumFrom (pre.length + 1 + mid.length + 1) := by
  show ((pre ++ e1 :: mid) ++ e2 :: post).enumFrom 0 = _
  rw [List.enumFrom_append, List.enumFrom_append, List.enumFrom_cons,
    List.enumFrom_cons]
  simp only [List.length_append, List.length_cons, Nat.zero_add]
  congr 3 <;> omega

end Merger

namespace Merger

theorem fold_two_split (st : AplState) (A B C : List (Nat × Record))
    (x y : Nat × Record) :
    validate_apl_fold st (A ++ x :: B ++ y :: C)
      = validate_apl_fold
          (validate_apl_entry
            (validate_apl_fold (validate_apl_entry (validate_apl_fold st A) x.1 x.2) B)
            y.1 y.2) C := by
  rw [fold_append_eq]
  rw [fold_cons_eq]
  rw [fold_append_eq]
  rw [fold_cons_eq]

theorem dup_fold_sink (pre mid post : List Record) (e1 e2 : Record) (s : PyVal)
    (h1 : pyGet e1 "sequence".toList = some s)
    (h2 : pyGet e2 "sequence".toList = some s) :
    AplSink (validate_apl_fold (apl_initial_state (pre ++ e1 :: mid ++ e2 :: post))
      (pre ++ e1 :: mid ++ e2 :: post).enum) := by
  rw [enum_two_split, fold_two_split]
  set st1 := validate_apl_fold (apl_initial_state (pre ++ e1 :: mid ++ e2 :: post))
    (pre.enumFrom 0) with hst1
  by_cases hs1 : AplSink st1
  · exact fold_sink _ _ (step_sink _ _ _ (fold_sink _ _ (step_sink _ _ _ hs1)))
  · have hr1 : Reach3 st1.result.status :=
      fold_reach3 _ _ (Or.inl (apl_initial_result_status _))
    have hraised1 := not_sink_raised_false hs1
    cases haid1 : pyGet e1 "asset_id".toList with
    | none =>
      exact fold_sink _ _ (step_sink _ _ _ (fold_sink _ _
        (Or.inr (step_fail_missing_aid st1 pre.length e1 hraised1 haid1 hr1))))
    | some v =>
      have hmem2 : s ∈ (validate_apl_entry st1 pre.length e1).seen_sequences :=
        step_seen_mem st1 pre.length e1 s hraised1 (by simp only [haid1]; simp) h1
      set st3 := validate_apl_fold (validate_apl_entry st1 pre.length e1)
        (mid.enumFrom (pre.length + 1)) with hst3
      by_cases hs3 : AplSink st3
      · exact fold_sink _ _ (step_sink _ _ _ hs3)
      · have hr3 : Reach3 st3.result.status :=
          fold_reach3 _ _ (step_reach3 _ _ _ hr1)
        have hraised3 := not_sink_raised_false hs3
        have hmem3 : s ∈ st3.seen_sequences := by
          obtain ⟨t, ht⟩ := fold_seen_ext (mid.enumFrom (pre.length + 1))
            (validate_apl_entry st1 pre.length e1)
          rw [hst3, ht]
          exact List.mem_append_left t hmem2
        cases haid2 : pyGet e2 "asset_id".toList with
        | none =>
          exact fold_sink _ _ (Or.inr
            (step_fail_missing_aid st3 (pre.length + 1 + mid.length) e2 hraised3 haid2 hr3))
        | some w =>
          exact fold_sink _ _ (Or.inr
            (step_fires st3 (pre.length + 1 + mid.length) e2 s hraised3
              (by simp only [haid2]; simp) h2 hmem3 hr3).1)

theorem validate_apl_dup_msg (pre mid post : List Record) (e1 e2 : Record)
    (s : PyVal)
    (haid : ∀ e ∈ pre ++ e1 :: mid ++ e2 :: post, pyGet e "asset_id".toList ≠ none)
    (hts : TimestampsAreStrings (pre ++ e1 :: mid ++ e2 :: post))
    (h1 : pyGet e1 "sequence".toList = some s)
    (h2 : pyGet e2 "sequence".toList = some s) :
    ∃ k v, dup_seq_msg k v ∈ (validate_apl (pre ++ e1 :: mid ++ e2 :: post)).errors := by
  have hmem_pre : ∀ e ∈ pre, e ∈ pre ++ e1 :: mid ++ e2 :: post := fun e he =>
    List.mem_append_left _ (List.mem_append_left _ he)
  have hmem_e1 : e1 ∈ pre ++ e1 :: mid ++ e2 :: post :=
    List.mem_append_left _ (List.mem_append_right _ (List.mem_cons_self _ _))
  have hmem_mid : ∀ e ∈ mid, e ∈ pre ++ e1 :: mid ++ e2 :: post := fun e he =>
    List.mem_append_left _ (List.mem_append_right _ (List.mem_cons_of_mem _ he))
  have hmem_e2 : e2 ∈ pre ++ e1 :: mid ++ e2 :: post :=
    List.mem_append_right _ (List.mem_cons_self _ _)
  set st1 := validate_apl_fold (apl_initial_state (pre ++ e1 :: mid ++ e2 :: post))
    (pre.enumFrom 0) with hst1
  have hraised1 : st1.raised = false := by
    rw [hst1]
    exact fold_raised_false _ _ rfl
      (fun p hp v hv => hts p.2 (hmem_pre p.2 (mem_enumFrom_snd pre 0 p hp)) v hv)
  have hr1 : Reach3 st1.result.status :=
    fold_reach3 _ _ (Or.inl (apl_initial_result_status _))
  have hmem2 : s ∈ (validate_apl_entry st1 pre.length e1).seen_sequences :=
    step_seen_mem st1 pre.length e1 s hraised1 (haid e1 hmem_e1) h1
  have hraised2 : (validate_apl_entry st1 pre.length e1).raised = false :=
    step_raised_false st1 pre.length e1 hraised1 (hts e1 hmem_e1)
  set st3 := validate_apl_fold (validate_apl_entry st1 pre.length e1)
    (mid.enumFrom (pre.length + 1)) with hst3
  have hraised3 : st3.raised = false := by
    rw [hst3]
    exact fold_raised_false _ _ hraised2
      (fun p hp v hv =>
        hts p.2 (hmem_mid p.2 (mem_enumFrom_snd mid (pre.length + 1) p hp)) v hv)
  have hr3 : Reach3 st3.result.status := fold_reach3 _ _ (step_reach3 _ _ _ hr1)
  have hmem3 : s ∈ st3.seen_sequences := by
    obtain ⟨t, ht⟩ := fold_seen_ext (mid.enumFrom (pre.length + 1))
      (validate_apl_entry st1 pre.length e1)
    rw [hst3, ht]
    exact List.mem_append_left t hmem2
  have hfire := step_fires st3 (pre.length + 1 + mid.length) e2 s hraised3
    (haid e2 hmem_e2) h2 hmem3 hr3
  refine ⟨pre.length + 1 + mid.length, s, ?_⟩
  have hfoldmem : dup_seq_msg (pre.length + 1 + mid.length) s ∈
      (validate_apl_fold (apl_initial_state (pre ++ e1 :: mid ++ e2 :: post))
        (pre ++ e1 :: mid ++ e2 :: post).enum).result.errors := by
    rw [enum_two_split, fold_two_split]
    exact errExt_mem (fold_errExt _ _) hfire.2
  exact errExt_mem (validate_apl_errExt _) hfoldmem

/-- C4 (amended): validating a change list in which two entries share a
sequence number always finishes `FAILED`; when moreover every entry carries
an `asset_id` and no entry carries a non-string timestamp (which would
abort the walk with a critical error instead), a duplicate-sequence error
message is recorded in `errors`.  Consequently a change list whose
validation did not report `FAILED` has pairwise-distinct sequence numbers.
(The multiple-`create` check belongs to difference-entry validation, not to
change-list validation — see the counterexample.) -/
theorem apl_duplicate_sequence_validation :
    (∀ (pre mid post : List Record) (e1 e2 : Record) (s : PyVal),
      pyGet e1 "sequence".toList = some s →
      pyGet e2 "sequence".toList = some s →
      (validate_apl (pre ++ e1 :: mid ++ e2 :: post)).status = .FAILED) ∧
    (∀ (pre mid post : List Record) (e1 e2 : Record) (s : PyVal),
      (∀ e ∈ pre ++ e1 :: mid ++ e2 :: post, pyGet e "asset_id".toList ≠ none) →
      TimestampsAreStrings (pre ++ e1 :: mid ++ e2 :: post) →
      pyGet e1 "sequence".toList = some s →
      pyGet e2 "sequence".toList = some s →
      ∃ k v, dup_seq_msg k v ∈ (validate_apl (pre ++ e1 :: mid ++ e2 :: post)).errors) ∧
    (∀ entries : List Record,
      (validate_apl entries).status ≠ .FAILED → DupSeqFree entries) := by
  refine ⟨?_, validate_apl_dup_msg, ?_⟩
  · intro pre mid post e1 e2 s h1 h2
    exact validate_apl_status_failed_of_sink _ (dup_fold_sink pre mid post e1 e2 s h1 h2)
  · intro entries hne
    rw [DupSeqFree, List.pairwise_iff_forall_sublist]
    intro a b hsub s hsa hsb
    obtain ⟨p, m, q, rfl⟩ := pair_sublist_split hsub
    exact hne (validate_apl_status_failed_of_sink _ (dup_fold_sink p m q a b s hsa hsb))

/-- C4 witness: a concrete two-entry change list sharing `sequence = 1`
fails validation with a recorded duplicate-sequence error. -/
theorem apl_duplicate_sequence_validation_witness :
    (validate_apl [[("asset_id".toList, PyVal.str "A".toList), ("sequence".toList, PyVal.int 1)],
        [("asset_id".toList, PyVal.str "B".toList), ("sequence".toList, PyVal.int 1)]]).status
      = .FAILED ∧
    ∃ k v, dup_seq_msg k v ∈
      (validate_apl [[("asset_id".toList, PyVal.str "A".toList), ("sequence".toList, PyVal.int 1)],
        [("asset_id".toList, PyVal.str "B".toList), ("sequence".toList, PyVal.int 1)]]).errors := by
  constructor
  · exact apl_duplicate_sequence_validation.1 []
      [] [] _ _ (PyVal.int 1) (by decide) (by decide)
  · have hts : TimestampsAreStrings
        [[("asset_id".toList, PyVal.str "A".toList), ("sequence".toList, PyVal.int 1)],
         [("asset_id".toList, PyVal.str "B".toList), ("sequence".toList, PyVal.int 1)]] := by
      intro e he v hv
      exfalso
      have hnone : pyGet e "timestamp".toList = none := by
        fin_cases he <;> decide
      rw [hnone] at hv
      exact Option.noConfusion hv
    exact apl_duplicate_sequence_validation.2.1 [] [] [] _ _ (PyVal.int 1)
      (by decide) hts (by decide) (by decide)

/-- C4 counterexample: the claim's consequence fails — a change list whose
entries all carry `asset_id`, with distinct sequence numbers but **two**
`create` operations for the same asset, passes change-list validation with
status `PASSED`; the multiple-`create` check is only performed by
difference-entry validation. -/
theorem apl_two_creates_pass_counterexample :
    (validate_apl
        [[("asset_id".toList, PyVal.str "A".toList), ("sequence".toList, PyVal.int 1),
          ("operation".toList, PyVal.str "create".toList)],
         [("asset_id".toList, PyVal.str "A".toList), ("sequence".toList, PyVal.int 2),
          ("operation".toList, PyVal.str "create".toList)]]).status
      = .PASSED ∧
    create_count
        [[("asset_id".toList, PyVal.str "A".toList), ("sequence".toList, PyVal.int 1),
          ("operation".toList, PyVal.str "create".toList)],
         [("asset_id".toList, PyVal.str "A".toList), ("sequence".toList, PyVal.int 2),
          ("operation".toList, PyVal.str "create".toList)]] "A".toList = 2 := by
  exact ⟨by decide, by decide⟩

end Merger

namespace Merger

/-! ## Helper lemmas: sorting and sort-order validation (C9) -/

theorem pyGet_perm {l l' : Record} (hp : l.Perm l')
    (h : (l.map (·.1)).Nodup) (k : Str) : pyGet l' k = pyGet l k := by
  unfold pyGet
  cases hfind : l.find? (fun p => p.1 = k) with
  | none =>
    cases hfind' : l'.find? (fun p => p.1 = k) with
    | none => rfl
    | some q =>
      have hq : q ∈ l' := List.mem_of_find?_eq_some hfind'
      have hqk := List.find?_some hfind'
      exact absurd hqk (List.find?_eq_none.mp hfind q (hp.symm.subset hq))
  | some q =>
    have hqmem : q ∈ l := List.mem_of_find?_eq_some hfind
    have hqk : q.1 = k := by simpa using List.find?_some hfind
    cases hfind' : l'.find? (fun p => p.1 = k) with
    | none =>
      exact absurd (List.find?_some hfind) (List.find?_eq_none.mp hfind' q (hp.subset hqmem))
    | some q' =>
      have hq'mem : q' ∈ l := hp.symm.subset (List.mem_of_find?_eq_some hfind')
      have hq'k : q'.1 = k := by simpa using List.find?_some hfind'
      have : q' = q :=
        List.inj_on_of_nodup_map h hq'mem hqmem (by rw [hqk, hq'k])
      rw [this]

theorem insertLe_perm (le : α → α → Bool) (x : α) :
    ∀ l : List α, (insertLe le x l).Perm (x :: l) := by
  intro l
  induction l with
  | nil => exact List.Perm.refl _
  | cons y ys ih =>
    unfold insertLe
    split
    · exact (ih.cons y).trans (List.Perm.swap x y ys)
    · exact List.Perm.refl _

theorem sortLe_perm (le : α → α → Bool) (l : List α) : (sortLe le l).Perm l := by
  suffices h : ∀ (l acc : List α),
      (l.foldl (fun acc x => insertLe le x acc) acc).Perm (acc ++ l) by
    simpa using h l []
  intro l
  induction l with
  | nil => intro acc; simp
  | cons x xs ih =>
    intro acc
    simp only [List.foldl_cons]
    refine (ih (insertLe le x acc)).trans ?_
    refine (List.Perm.append_right xs (insertLe_perm le x acc)).trans ?_
    exact List.perm_middle.symm

theorem sort_asset_fields_perm (r : Record) : (sort_asset_fields r).Perm r :=
  sortLe_perm _ r

theorem pyGet_sort_asset_fields (r : Record) (h : (r.map (·.1)).Nodup) (k : Str) :
    pyGet (sort_asset_fields r) k = pyGet r k :=
  pyGet_perm (sort_asset_fields_perm r).symm h k

end Merger

namespace Merger

/-- `a` may come (weakly) before `b` under a `cmp_to_key` comparator. -/
def cmpNondesc (cmp : α → α → Option Int) (a b : α) : Prop :=
  ∃ c, cmp a b = some c ∧ c ≤ 0

theorem insertCmp_perm (cmp : α → α → Option Int) (x : α) :
    ∀ (l res : List α), insertCmp cmp x l = some res → res.Perm (x :: l) := by
  intro l
  induction l with
  | nil =>
    intro res h
    cases h
    exact List.Perm.refl _
  | cons y ys ih =>
    intro res h
    unfold insertCmp at h
    rcases hcy : cmp x y with _ | c
    · rw [hcy] at h
      exact absurd h (by simp)
    · rw [hcy] at h
      dsimp only at h
      by_cases hlt : c < 0
      · rw [if_pos hlt] at h
        cases h
        exact List.Perm.refl _
      · rw [if_neg hlt] at h
        obtain ⟨res', hi, rfl⟩ := Option.map_eq_some'.mp h
        exact ((ih res' hi).cons y).trans (List.Perm.swap x y ys)

theorem sortCmpAux_perm (cmp : α → α → Option Int) :
    ∀ (l acc out : List α), sortCmpAux cmp acc l = some out →
      out.Perm (acc ++ l) := by
  intro l
  induction l with
  | nil =>
    intro acc out h
    cases h
    simp
  | cons x xs ih =>
    intro acc out h
    unfold sortCmpAux at h
    rcases hi : insertCmp cmp x acc with _ | acc2 <;> rw [hi] at h
    · exact absurd h (by simp)
    · refine (ih acc2 out h).trans ?_
      refine (List.Perm.append_right xs (insertCmp_perm cmp x acc acc2 hi)).trans ?_
      exact List.perm_middle.symm

theorem sortCmp_perm (cmp : α → α → Option Int) (l out : List α)
    (h : sortCmp cmp l = some out) : out.Perm l := by
  simpa using sortCmpAux_perm cmp l [] out h

theorem insertCmp_head (cmp : α → α → Option Int) (x : α) :
    ∀ (l res : List α), insertCmp cmp x l = some res →
      res.head? = some x ∨ res.head? = l.head? := by
  intro l res h
  cases l with
  | nil => cases h; exact Or.inl rfl
  | cons y ys =>
    unfold insertCmp at h
    rcases hcy : cmp x y with _ | c
    · rw [hcy] at h
      exact absurd h (by simp)
    · rw [hcy] at h
      dsimp only at h
      by_cases hlt : c < 0
      · rw [if_pos hlt] at h
        cases h
        exact Or.inl rfl
      · rw [if_neg hlt] at h
        obtain ⟨res', _, rfl⟩ := Option.map_eq_some'.mp h
        exact Or.inr rfl

theorem insertCmp_chain (cmp : α → α → Option Int)
    (hanti : ∀ a b c, cmp a b = some c → cmp b a = some (-c)) (x : α) :
    ∀ (l res : List α), insertCmp cmp x l = some res →
      List.Chain' (cmpNondesc cmp) l → List.Chain' (cmpNondesc cmp) res := by
  intro l
  induction l with
  | nil =>
    intro res h _
    cases h
    exact List.chain'_singleton x
  | cons y ys ih =>
    intro res h hch
    unfold insertCmp at h
    rcases hcy : cmp x y with _ | c
    · rw [hcy] at h
      exact absurd h (by simp)
    · rw [hcy] at h
      dsimp only at h
      by_cases hlt : c < 0
      · rw [if_pos hlt] at h
        cases h
        exact List.chain'_cons.mpr ⟨⟨c, hcy, le_of_lt hlt⟩, hch⟩
      · rw [if_neg hlt] at h
        obtain ⟨res', hi, rfl⟩ := Option.map_eq_some'.mp h
        refine List.chain'_cons'.mpr ⟨?_, ih res' hi hch.tail⟩
        intro z hz
        rcases insertCmp_head cmp x ys res' hi with hhead | hhead
        · rw [hhead] at hz
          cases hz
          exact ⟨-c, hanti x y c hcy, by omega⟩
        · rw [hhead] at hz
          exact (List.chain'_cons'.mp hch).1 z hz

theorem sortCmpAux_chain (cmp : α → α → Option Int)
    (hanti : ∀ a b c, cmp a b = some c → cmp b a = some (-c)) :
    ∀ (l acc out : List α), List.Chain' (cmpNondesc cmp) acc →
      sortCmpAux cmp acc l = some out → List.Chain' (cmpNondesc cmp) out := by
  intro l
  induction l with
  | nil =>
    intro acc out hch h
    cases h
    exact hch
  | cons x xs ih =>
    intro acc out hch h
    unfold sortCmpAux at h
    rcases hi : insertCmp cmp x acc with _ | acc2 <;> rw [hi] at h
    · exact absurd h (by simp)
    · exact ih acc2 out (insertCmp_chain cmp hanti x acc acc2 hi hch) h

theorem sortCmp_chain (cmp : α → α → Option Int)
    (hanti : ∀ a b c, cmp a b = some c → cmp b a = some (-c)) (l out : List α)
    (h : sortCmp cmp l = some out) : List.Chain' (cmpNondesc cmp) out :=
  sortCmpAux_chain cmp hanti l [] out List.chain'_nil h

end Merger

namespace Merger

theorem strCmp_swap : ∀ s1 s2 : Str, strCmp s2 s1 = (strCmp s1 s2).swap := by
  intro s1
  induction s1 with
  | nil =>
    intro s2
    cases s2 <;> rfl
  | cons a as ih =>
    intro s2
    cases s2 with
    | nil => rfl
    | cons b bs =>
      unfold strCmp
      rcases lt_trichotomy a b with h | h | h
      · rw [if_neg (lt_asymm h), if_pos h, if_pos h]
        rfl
      · subst h
        rw [if_neg (lt_irrefl a), if_neg (lt_irrefl a), if_neg (lt_irrefl a),
          if_neg (lt_irrefl a)]
        exact ih bs
      · rw [if_pos h, if_neg (lt_asymm h), if_pos h]
        rfl

theorem tokCmp_swap : ∀ t1 t2 : NTok, tokCmp t2 t1 = (tokCmp t1 t2).map Ordering.swap := by
  intro t1 t2
  cases t1 <;> cases t2 <;> try rfl
  case num.num a b =>
    rcases Nat.lt_trichotomy a b with h | h | h
    · simp [tokCmp, h, Nat.lt_asymm h]
      rfl
    · subst h
      simp [tokCmp]
      rfl
    · simp [tokCmp, h, Nat.lt_asymm h]
      rfl
  case str.str a b =>
    show some (strCmp b a) = (some (strCmp a b)).map Ordering.swap
    rw [strCmp_swap a b]
    rfl

theorem keyCmp_swap : ∀ k1 k2 : List NTok, keyCmp k2 k1 = (keyCmp k1 k2).map Ordering.swap := by
  intro k1
  induction k1 with
  | nil =>
    intro k2
    cases k2 <;> rfl
  | cons a as ih =>
    intro k2
    cases k2 with
    | nil => rfl
    | cons b bs =>
      unfold keyCmp
      rw [tokCmp_swap]
      rcases htok : tokCmp a b with _ | o
      · rfl
      · cases o with
        | eq => simpa using ih bs
        | lt => rfl
        | gt => rfl

theorem asset_id_comparator_both_falsy (a b : Record)
    (h1 : pyFalsy (get_asset_id a) = true) (h2 : pyFalsy (get_asset_id b) = true) :
    asset_id_comparator a b = some 0 := by
  unfold asset_id_comparator
  simp [h1, h2]

theorem asset_id_comparator_falsy_left (a b : Record)
    (h1 : pyFalsy (get_asset_id a) = true) (h2 : pyFalsy (get_asset_id b) = false) :
    asset_id_comparator a b = some 1 := by
  unfold asset_id_comparator
  simp [h1, h2]

theorem asset_id_comparator_falsy_right (a b : Record)
    (h1 : pyFalsy (get_asset_id a) = false) (h2 : pyFalsy (get_asset_id b) = true) :
    asset_id_comparator a b = some (-1) := by
  unfold asset_id_comparator
  simp [h1, h2]

theorem asset_id_comparator_truthy (a b : Record)
    (h1 : pyFalsy (get_asset_id a) = false) (h2 : pyFalsy (get_asset_id b) = false) :
    asset_id_comparator a b =
      (match keyCmp (natural_sort_key (some (get_asset_id a)))
          (natural_sort_key (some (get_asset_id b))) with
       | none => none
       | some .lt => some (-1)
       | some .gt => some 1
       | some .eq => some 0) := by
  unfold asset_id_comparator
  simp [h1, h2]

theorem asset_id_comparator_antisym (a b : Record) (c : Int)
    (h : asset_id_comparator a b = some c) :
    asset_id_comparator b a = some (-c) := by
  by_cases h1 : pyFalsy (get_asset_id a) = true <;>
    by_cases h2 : pyFalsy (get_asset_id b) = true
  · rw [asset_id_comparator_both_falsy a b h1 h2] at h
    cases h
    rw [asset_id_comparator_both_falsy b a h2 h1]
    rfl
  · rw [asset_id_comparator_falsy_left a b h1 (by simpa using h2)] at h
    cases h
    rw [asset_id_comparator_falsy_right b a (by simpa using h2) h1]
  · rw [asset_id_comparator_falsy_right a b (by simpa using h1) h2] at h
    cases h
    rw [asset_id_comparator_falsy_left b a h2 (by simpa using h1)]
    rfl
  · rw [asset_id_comparator_truthy a b (by simpa using h1) (by simpa using h2)] at h
    rw [asset_id_comparator_truthy b a (by simpa using h2) (by simpa using h1)]
    rw [keyCmp_swap]
    rcases hk : keyCmp (natural_sort_key (some (get_asset_id a)))
        (natural_sort_key (some (get_asset_id b))) with _ | o
    · rw [hk] at h
      exact absurd h (by simp)
    · rw [hk] at h
      cases o <;> (cases h; rfl)

end Merger

namespace Merger

theorem goodId_falsy_eq_idIsNone (r : Record) (h : goodId r = true) :
    pyFalsy (get_asset_id r) = idIsNone r := by
  unfold goodId at h
  unfold idIsNone get_asset_id
  cases hv : pyGet r "asset_id".toList with
  | none => rfl
  | some v =>
    rw [hv] at h
    cases v with
    | pynone => rfl
    | str s => simp only [Option.getD_some]; simpa [pyFalsy] using h
    | int n => exact absurd h (by simp)
    | float q => exact absurd h (by simp)

theorem goodId_truthy_str (r : Record) (h : goodId r = true)
    (ht : pyFalsy (get_asset_id r) = false) :
    ∃ s, pyGet r "asset_id".toList = some (.str s) ∧ get_asset_id r = .str s := by
  unfold goodId at h
  unfold get_asset_id at ht ⊢
  cases hv : pyGet r "asset_id".toList with
  | none => rw [hv] at ht; exact absurd ht (by simp [pyFalsy])
  | some v =>
    rw [hv] at h ht
    cases v with
    | pynone => exact absurd ht (by simp [pyFalsy])
    | str s => exact ⟨s, rfl, rfl⟩
    | int n => exact absurd h (by simp)
    | float q => exact absurd h (by simp)

theorem validate_sort_order_cons_cons (x y : Record) (r : List Record) :
    validate_sort_order (x :: y :: r) =
      (if idIsNone x && !idIsNone y then some false
       else if idIsNone x || idIsNone y then validate_sort_order (y :: r)
       else
         match keyCmp
             (natural_sort_key (some (.str (pyValStr ((pyGet x "asset_id".toList).getD .pynone)))))
             (natural_sort_key (some (.str (pyValStr ((pyGet y "asset_id".toList).getD .pynone))))) with
         | none => none
         | some .gt => some false
         | _ => validate_sort_order (y :: r)) := rfl

theorem validate_after_sort_chain :
    ∀ l : List Record,
      (∀ r ∈ l, goodId r = true ∧ (r.map (·.1)).Nodup) →
      List.Chain' (cmpNondesc asset_id_comparator) l →
      validate_sort_order (l.map sort_asset_fields) = some true := by
  intro l
  induction l with
  | nil => intro _ _; rfl
  | cons a l ih =>
    cases l with
    | nil => intro _ _; rfl
    | cons b rest =>
      intro hgood hch
      obtain ⟨⟨c, hc, hcle⟩, hch2⟩ := List.chain'_cons.mp hch
      have hga := hgood a (List.mem_cons_self a _)
      have hgb := hgood b (List.mem_cons_of_mem a (List.mem_cons_self b _))
      have hpa := pyGet_sort_asset_fields a hga.2 "asset_id".toList
      have hpb := pyGet_sort_asset_fields b hgb.2 "asset_id".toList
      have hrec := ih (fun r hr => hgood r (List.mem_cons_of_mem a hr)) hch2
      have hida : idIsNone (sort_asset_fields a) = idIsNone a := by
        unfold idIsNone
        rw [hpa]
      have hidb : idIsNone (sort_asset_fields b) = idIsNone b := by
        unfold idIsNone
        rw [hpb]
      simp only [List.map_cons]
      simp only [List.map_cons] at hrec
      rw [validate_sort_order_cons_cons, hida, hidb, hpa, hpb,
        ← goodId_falsy_eq_idIsNone a hga.1, ← goodId_falsy_eq_idIsNone b hgb.1]
      by_cases hfa : pyFalsy (get_asset_id a) = true
      · by_cases hfb : pyFalsy (get_asset_id b) = true
        · rw [hfa, hfb, if_neg (by decide), if_pos (by decide)]
          exact hrec
        · have h1 := asset_id_comparator_falsy_left a b hfa (by simpa using hfb)
          rw [h1] at hc
          cases hc
          exact absurd hcle (by norm_num)
      · have hfa2 : pyFalsy (get_asset_id a) = false := by simpa using hfa
        by_cases hfb : pyFalsy (get_asset_id b) = true
        · rw [hfa2, hfb, if_neg (by decide), if_pos (by decide)]
          exact hrec
        · have hfb2 : pyFalsy (get_asset_id b) = false := by simpa using hfb
          obtain ⟨s, hsa, hsa2⟩ := goodId_truthy_str a hga.1 hfa2
          obtain ⟨t, hsb, hsb2⟩ := goodId_truthy_str b hgb.1 hfb2
          rw [asset_id_comparator_truthy a b hfa2 hfb2, hsa2, hsb2] at hc
          rw [hfa2, hfb2, if_neg (by decide), if_neg (by decide), hsa, hsb,
            Option.getD_some, Option.getD_some,
            show pyValStr (PyVal.str s) = s from rfl,
            show pyValStr (PyVal.str t) = t from rfl]
          rcases hk : keyCmp (natural_sort_key (some (.str s)))
              (natural_sort_key (some (.str t))) with _ | o
          · rw [hk] at hc
            exact absurd hc (by simp)
          · rw [hk] at hc
            cases o with
            | lt => exact hrec
            | eq => exact hrec
            | gt =>
              cases hc
              exact absurd hcle (by norm_num)

/-- C9 (amended): `validate_sort_order` returns true for every list that
`sort_assets` *successfully* sorts, provided every record's `asset_id` is
absent, `None`, or a non-empty string (and record keys are unique); an
empty-string identifier breaks the agreement — the sorter sends it to the
end while the validator treats it as the smallest key — and a failed sort
returns the unsorted input, which the validator may reject.  On an
out-of-order list the validator returns false. -/
theorem validate_sort_order_after_successful_sort :
    (∀ assets : List Record,
      (∀ r ∈ assets, goodId r = true ∧ (r.map (·.1)).Nodup) →
      ∀ l, sortCmp asset_id_comparator assets = some l →
      validate_sort_order (sort_assets assets) = some true) ∧
    validate_sort_order
      [[("asset_id".toList, PyVal.str "b".toList)],
       [("asset_id".toList, PyVal.str "a".toList)]] = some false := by
  constructor
  · intro assets hgood l hsort
    have hperm := sortCmp_perm asset_id_comparator assets l hsort
    have hchain := sortCmp_chain asset_id_comparator asset_id_comparator_antisym
      assets l hsort
    have heq : sort_assets assets = l.map sort_asset_fields := by
      unfold sort_assets
      rw [hsort]
    rw [heq]
    exact validate_after_sort_chain l (fun r hr => hgood r (hperm.subset hr)) hchain
  · decide

/-- C9 witness: sorting `['b', 'a']` succeeds and produces a list the
validator accepts. -/
theorem validate_sort_order_after_successful_sort_witness :
    validate_sort_order (sort_assets
      [[("asset_id".toList, PyVal.str "b".toList)],
       [("asset_id".toList, PyVal.str "a".toList)]]) = some true :=
  validate_sort_order_after_successful_sort.1
    [[("asset_id".toList, PyVal.str "b".toList)],
     [("asset_id".toList, PyVal.str "a".toList)]]
    (by decide)
    [[("asset_id".toList, PyVal.str "a".toList)],
     [("asset_id".toList, PyVal.str "b".toList)]]
    (by decide)

/-- C9 counterexample: with an empty-string identifier — explicitly within
the claim's advertised scope — `sort_assets` *successfully* sorts
`['', 'a']` into `['a', '']` (empty ids are treated as null-like and go
last), yet `validate_sort_order` rejects the result, because it compares
`''` by natural key, where it is the smallest.  So the claim "returns true
for every list that sort_assets produces" is false. -/
theorem validate_sort_order_empty_id_counterexample :
    sortCmp asset_id_comparator
        [[("asset_id".toList, PyVal.str [])],
         [("asset_id".toList, PyVal.str "a".toList)]]
      = some [[("asset_id".toList, PyVal.str "a".toList)],
              [("asset_id".toList, PyVal.str [])]] ∧
    validate_sort_order (sort_assets
        [[("asset_id".toList, PyVal.str [])],
         [("asset_id".toList, PyVal.str "a".toList)]]) = some false :=
  ⟨by decide, by decide⟩

end Merger

namespace Merger

/-! ## Helper lemmas: stripping, quoting and line splitting (differ_utils.py) -/

theorem lstrip_cons_space (c : Char) (s : Str) (h : isPySpace c = true) :
    lstrip (c :: s) = lstrip s := by
  simp [lstrip, List.dropWhile_cons, h]

theorem pyStrip_cons_space (c : Char) (s : Str) (h : isPySpace c = true) :
    pyStrip (c :: s) = pyStrip s := by
  simp [pyStrip, lstrip_cons_space c s h]

theorem rstrip_length_le (s : Str) : (rstrip s).length ≤ s.length := by
  simpa [rstrip] using (List.dropWhile_sublist (l := s.reverse) isPySpace).length_le

theorem strip_stable_parts (s : Str) (h : pyStrip s = s) :
    lstrip s = s ∧ rstrip s = s := by
  have h1 : (lstrip s).length ≤ s.length := (List.dropWhile_sublist _).length_le
  have h2 : (rstrip (lstrip s)).length ≤ (lstrip s).length := rstrip_length_le _
  have hlen : (lstrip s).length = s.length := by
    have h3 := congrArg List.length h
    simp only [pyStrip] at h3
    omega
  have hls : lstrip s = s :=
    (List.dropWhile_suffix isPySpace).eq_of_length hlen
  refine ⟨hls, ?_⟩
  have h4 := h
  rw [pyStrip, hls] at h4
  exact h4

theorem rstrip_append_last (x y : Str) (c : Char) (t : Str)
    (hrev : y.reverse = c :: t) (hc : isPySpace c = false) :
    rstrip (x ++ y) = x ++ y := by
  have hdw : (x ++ y).reverse.dropWhile isPySpace = (x ++ y).reverse := by
    rw [List.reverse_append, hrev]
    simp [List.dropWhile_cons, hc]
  rw [rstrip, hdw, List.reverse_reverse]

theorem exists_last_nonspace (y : Str) (hy : rstrip y = y) (hne : y ≠ []) :
    ∃ c t, y.reverse = c :: t ∧ isPySpace c = false := by
  obtain ⟨c, t, hrev⟩ : ∃ c t, y.reverse = c :: t := by
    cases hr : y.reverse with
    | nil => exact absurd (by simpa using congrArg List.reverse hr) hne
    | cons c t => exact ⟨c, t, rfl⟩
  refine ⟨c, t, hrev, ?_⟩
  by_contra hcc
  have hc : isPySpace c = true := by
    cases hb : isPySpace c with
    | false => exact absurd hb hcc
    | true => rfl
  have hdw : y.reverse.dropWhile isPySpace = y.reverse := by
    have h5 := congrArg List.reverse hy
    simpa [rstrip] using h5
  rw [hrev] at hdw
  have hlen := (List.dropWhile_sublist (l := t) isPySpace).length_le
  rw [List.dropWhile_cons_of_pos hc] at hdw
  have h6 := congrArg List.length hdw
  simp at h6
  omega

theorem rstrip_cons_nonspace (c : Char) (s : Str) (hc : isPySpace c = false) :
    ∃ t, rstrip (c :: s) = c :: t := by
  refine ⟨(s.reverse.dropWhile isPySpace).reverse, ?_⟩
  rw [rstrip, List.reverse_cons, List.dropWhile_append]
  by_cases hni : (s.reverse.dropWhile isPySpace).isEmpty
  · rw [List.isEmpty_iff] at hni
    simp [hni, List.dropWhile_cons, hc]
  · simp [hni]

theorem dropQuote_head (l : Str) (h : l.head? ≠ some '"') :
    l.dropWhile (· = '"') = l := by
  cases l with
  | nil => rfl
  | cons a t =>
    have ha : ¬ (a = '"') := fun hq => h (by rw [hq]; rfl)
    simp [List.dropWhile_cons, ha]

theorem stripQuotes_wrap (z : Str) (h1 : z.head? ≠ some '"') (h2 : z.getLast? ≠ some '"') :
    stripQuotes ('"' :: (z ++ ['"'])) = z := by
  cases z with
  | nil => rfl
  | cons a t =>
    have hd1 : ('"' :: ((a :: t) ++ ['"'])).dropWhile (· = '"') = (a :: t) ++ ['"'] := by
      rw [show ('"' :: ((a :: t) ++ ['"'])).dropWhile (· = '"')
            = ((a :: t) ++ ['"']).dropWhile (· = '"') from rfl]
      exact dropQuote_head _ (by simpa using h1)
    have hd2 : ((a :: t).reverse).dropWhile (· = '"') = (a :: t).reverse := by
      apply dropQuote_head
      rw [List.head?_reverse]
      exact h2
    rw [stripQuotes, hd1, List.reverse_append]
    rw [show ((['"'] : Str).reverse ++ (a :: t).reverse).dropWhile (· = '"')
          = ((a :: t).reverse).dropWhile (· = '"') from rfl]
    rw [hd2, List.reverse_reverse]

theorem splitLines_append_newline (l rest : Str) (h : '\n' ∉ l) :
    splitLines (l ++ '\n' :: rest) = l :: splitLines rest := by
  induction l with
  | nil => simp [splitLines]
  | cons c t ih =>
    have hc : ¬ (c = '\n') := fun hcc => h (by rw [hcc]; exact List.mem_cons_self _ _)
    have ht : '\n' ∉ t := fun hm => h (List.mem_cons_of_mem c hm)
    show splitLines (c :: (t ++ '\n' :: rest)) = (c :: t) :: splitLines rest
    rw [splitLines, if_neg hc, ih ht]

theorem joinNl_cons (l : Str) (ls : List Str) :
    joinNl (l :: ls) = l ++ '\n' :: joinNl ls := by
  simp [joinNl]

theorem splitLines_joinNl (ls : List Str) (h : ∀ l ∈ ls, '\n' ∉ l) :
    splitLines (joinNl ls) = ls ++ [[]] := by
  induction ls with
  | nil => rfl
  | cons l ls ih =>
    rw [joinNl_cons, splitLines_append_newline l _ (h l (List.mem_cons_self _ _)),
        ih (fun x hx => h x (List.mem_cons_of_mem _ hx))]
    rfl

end Merger

namespace Merger

/-! ## Helper lemmas: the writer emits no newline inside a line -/

theorem digitChar_ne_lf (m : Nat) (hm : m < 10) : Nat.digitChar m ≠ '\n' := by
  interval_cases m <;> decide

theorem toDigitsCore_mem (fuel : Nat) :
    ∀ (n : Nat) (acc : List Char) (c : Char),
      c ∈ Nat.toDigitsCore 10 fuel n acc →
        c ∈ acc ∨ ∃ m, m < 10 ∧ c = Nat.digitChar m := by
  induction fuel with
  | zero => intro n acc c hc; exact Or.inl hc
  | succ f ih =>
    intro n acc c hc
    simp only [Nat.toDigitsCore] at hc
    by_cases hz : n / 10 = 0
    · rw [if_pos hz] at hc
      rcases List.mem_cons.mp hc with rfl | hacc
      · exact Or.inr ⟨n % 10, Nat.mod_lt _ (by omega), rfl⟩
      · exact Or.inl hacc
    · rw [if_neg hz] at hc
      rcases ih _ _ _ hc with hacc | hdig
      · rcases List.mem_cons.mp hacc with rfl | h2
        · exact Or.inr ⟨n % 10, Nat.mod_lt _ (by omega), rfl⟩
        · exact Or.inl h2
      · exact Or.inr hdig

theorem natStr_ne_lf (n : Nat) : '\n' ∉ natStr n := by
  intro hmem
  rw [natStr, Nat.toDigits] at hmem
  rcases toDigitsCore_mem (n + 1) n [] '\n' hmem with h | ⟨m, hm, he⟩
  · exact absurd h (List.not_mem_nil _)
  · exact digitChar_ne_lf m hm he.symm

theorem scoreStr_ne_lf (h : Int) : '\n' ∉ scoreStr h := by
  intro hmem
  simp only [scoreStr] at hmem
  rcases List.mem_append.mp hmem with hm | hm
  · rcases List.mem_append.mp hm with hs | hd
    · split at hs
      · exact absurd (List.mem_singleton.mp hs) (by decide)
      · exact absurd hs (List.not_mem_nil _)
    · exact natStr_ne_lf _ hd
  · split at hm
    · exact absurd hm (by decide)
    · split at hm
      · rcases List.mem_cons.mp hm with h1 | h2
        · exact absurd h1 (by decide)
        · exact natStr_ne_lf _ h2
      · split at hm
        · rcases List.mem_cons.mp hm with h1 | h2
          · exact absurd h1 (by decide)
          · rcases List.mem_cons.mp h2 with h3 | h4
            · exact absurd h3 (by decide)
            · exact natStr_ne_lf _ h4
        · rcases List.mem_cons.mp hm with h1 | h2
          · exact absurd h1 (by decide)
          · exact natStr_ne_lf _ h2

end Merger

namespace Merger

/-! ## Helper lemmas: how the parser sees each written line -/

theorem pyStrip_asset_line (aid : Str) (h : pyStrip aid = aid) (hne : aid ≠ []) :
    pyStrip ("asset_id: ".toList ++ aid) = "asset_id: ".toList ++ aid := by
  obtain ⟨hl, hr⟩ := strip_stable_parts aid h
  obtain ⟨c, t, hrev, hc⟩ := exists_last_nonspace aid hr hne
  have hls : lstrip ("asset_id: ".toList ++ aid) = "asset_id: ".toList ++ aid := rfl
  rw [pyStrip, hls]
  exact rstrip_append_last _ _ c t hrev hc

theorem pyStrip_field_line (f : Str) (h : pyStrip f = f) (hne : f ≠ []) :
    pyStrip ("  - field_name: ".toList ++ f) = "- field_name: ".toList ++ f := by
  obtain ⟨hl, hr⟩ := strip_stable_parts f h
  obtain ⟨c, t, hrev, hc⟩ := exists_last_nonspace f hr hne
  have hls : lstrip ("  - field_name: ".toList ++ f) = "- field_name: ".toList ++ f := rfl
  rw [pyStrip, hls]
  exact rstrip_append_last _ _ c t hrev hc

theorem pyStrip_hash (s : Str) : ∃ t, pyStrip ('#' :: s) = '#' :: t := by
  have hls : lstrip ('#' :: s) = '#' :: s := rfl
  rw [pyStrip, hls]
  exact rstrip_cons_nonspace '#' s (by decide)

theorem parseLine_blank (st : ParseSt) : parseLine st [] = st := rfl

theorem parseStripped_hash (st : ParseSt) (t : Str) :
    parseStripped st ('#' :: t) = st := by
  cases t with
  | nil => rfl
  | cons c r => rfl

theorem parseLine_hash (st : ParseSt) (raw : Str) (h : ∃ t, pyStrip raw = '#' :: t) :
    parseLine st raw = st := by
  obtain ⟨t, ht⟩ := h
  rw [parseLine, ht, parseStripped_hash]

theorem parseStripped_asset_val (st : ParseSt) (v : Str) :
    parseStripped st ("asset_id: ".toList ++ v)
      = { st with acc := { st.acc with asset_id := some (pyStrip v) } } := by
  have h1 : parseStripped st ("asset_id: ".toList ++ v)
      = { st with acc := { st.acc with asset_id := some (pyStrip (' ' :: v)) } } := rfl
  rw [h1, pyStrip_cons_space ' ' v (by decide)]

theorem parseLine_asset (st : ParseSt) (aid : Str) (h : pyStrip aid = aid) :
    parseLine st ("asset_id: ".toList ++ aid)
      = { st with acc := { st.acc with asset_id := some aid } } := by
  rcases eq_or_ne aid [] with rfl | hne
  · rfl
  · rw [parseLine, pyStrip_asset_line aid h hne, parseStripped_asset_val, h]

theorem parseLine_note_top (st : ParseSt) :
    parseLine st ("note: ".toList ++ "Asset exists only in Topdesk system".toList)
      = { st with acc := { st.acc with
          note := some "Asset exists only in Topdesk system".toList } } := rfl

theorem parseLine_note_zab (st : ParseSt) :
    parseLine st ("note: ".toList ++ "Asset exists only in Zabbix system".toList)
      = { st with acc := { st.acc with
          note := some "Asset exists only in Zabbix system".toList } } := rfl

theorem parseLine_differences (st : ParseSt) :
    parseLine st "differences:".toList = { st with inDifferences := true } := rfl

end Merger

namespace Merger

theorem parseStripped_field_val (st : ParseSt) (v : Str) (hin : st.inDifferences = true) :
    parseStripped st ("- field_name: ".toList ++ v)
      = { st with
          acc := (if st.current.isEmptyDict then st.acc
                  else { st.acc with differences := st.acc.differences ++ [st.current] }),
          current := { field_name := some (pyStrip v) } } := by
  have hval : pyStrip (' ' :: v) = pyStrip v := pyStrip_cons_space ' ' v (by decide)
  calc parseStripped st ("- field_name: ".toList ++ v)
      = (if st.inDifferences = true then
          { st with
            acc := (if st.current.isEmptyDict then st.acc
                    else { st.acc with differences := st.acc.differences ++ [st.current] }),
            current := { field_name := some (pyStrip (' ' :: v)) } }
         else st) := rfl
    _ = _ := by rw [hval, hin]; simp

theorem parseStripped_zabbix_val (st : ParseSt) (v : Str) (hin : st.inDifferences = true) :
    parseStripped st ("zabbix_value: ".toList ++ v)
      = { st with current :=
          { st.current with zabbix_value := some (stripQuotes (pyStrip v)) } } := by
  have hval : pyStrip (' ' :: v) = pyStrip v := pyStrip_cons_space ' ' v (by decide)
  calc parseStripped st ("zabbix_value: ".toList ++ v)
      = (if st.inDifferences = true then
          { st with current :=
            { st.current with zabbix_value := some (stripQuotes (pyStrip (' ' :: v))) } }
         else st) := rfl
    _ = _ := by rw [hval, hin]; simp

theorem parseStripped_topdesk_val (st : ParseSt) (v : Str) (hin : st.inDifferences = true) :
    parseStripped st ("topdesk_value: ".toList ++ v)
      = { st with current :=
          { st.current with topdesk_value := some (stripQuotes (pyStrip v)) } } := by
  have hval : pyStrip (' ' :: v) = pyStrip v := pyStrip_cons_space ' ' v (by decide)
  calc parseStripped st ("topdesk_value: ".toList ++ v)
      = (if st.inDifferences = true then
          { st with current :=
            { st.current with topdesk_value := some (stripQuotes (pyStrip (' ' :: v))) } }
         else st) := rfl
    _ = _ := by rw [hval, hin]; simp

theorem parseLine_field (st : ParseSt) (f : Str) (hin : st.inDifferences = true)
    (h : pyStrip f = f) :
    parseLine st ("  - field_name: ".toList ++ f)
      = { st with
          acc := (if st.current.isEmptyDict then st.acc
                  else { st.acc with differences := st.acc.differences ++ [st.current] }),
          current := { field_name := some f } } := by
  rcases eq_or_ne f [] with rfl | hne
  · have hstrip : pyStrip ("  - field_name: ".toList ++ ([] : Str))
        = "- field_name:".toList := by decide
    rw [parseLine, hstrip]
    calc parseStripped st "- field_name:".toList
        = (if st.inDifferences = true then
            { st with
              acc := (if st.current.isEmptyDict then st.acc
                      else { st.acc with differences := st.acc.differences ++ [st.current] }),
              current := { field_name := some ([] : Str) } }
           else st) := rfl
      _ = _ := by rw [hin]; simp
  · rw [parseLine, pyStrip_field_line f h hne, parseStripped_field_val st f hin, h]

theorem parseLine_zabbix (st : ParseSt) (z : Str) (hin : st.inDifferences = true)
    (hok : ValueOk z) :
    parseLine st ("    zabbix_value: \"".toList ++ z ++ ['"'])
      = { st with current := { st.current with zabbix_value := some z } } := by
  obtain ⟨hlf, hhead, hlast⟩ := hok
  have hassoc : "    zabbix_value: \"".toList ++ z ++ ['"']
      = "    zabbix_value: \"".toList ++ (z ++ ['"']) := List.append_assoc _ _ _
  have hls : lstrip ("    zabbix_value: \"".toList ++ (z ++ ['"']))
      = "zabbix_value: \"".toList ++ (z ++ ['"']) := rfl
  have hline : pyStrip ("    zabbix_value: \"".toList ++ (z ++ ['"']))
      = "zabbix_value: ".toList ++ ('"' :: (z ++ ['"'])) := by
    rw [pyStrip, hls]
    calc rstrip ("zabbix_value: \"".toList ++ (z ++ ['"']))
        = rstrip (("zabbix_value: \"".toList ++ z) ++ ['"']) := by rw [List.append_assoc]
      _ = ("zabbix_value: \"".toList ++ z) ++ ['"'] :=
          rstrip_append_last _ _ '"' [] rfl (by decide)
      _ = "zabbix_value: ".toList ++ ('"' :: (z ++ ['"'])) := by
          rw [List.append_assoc]; rfl
  have hq : pyStrip ('"' :: (z ++ ['"'])) = '"' :: (z ++ ['"']) := by
    have hls2 : lstrip ('"' :: (z ++ ['"'])) = '"' :: (z ++ ['"']) := rfl
    rw [pyStrip, hls2]
    calc rstrip ('"' :: (z ++ ['"'])) = rstrip (('"' :: z) ++ ['"']) := rfl
      _ = ('"' :: z) ++ ['"'] := rstrip_append_last _ _ '"' [] rfl (by decide)
      _ = '"' :: (z ++ ['"']) := by rw [List.cons_append]
  rw [parseLine, hassoc, hline, parseStripped_zabbix_val st _ hin, hq,
      stripQuotes_wrap z hhead hlast]

theorem parseLine_topdesk (st : ParseSt) (z : Str) (hin : st.inDifferences = true)
    (hok : ValueOk z) :
    parseLine st ("    topdesk_value: \"".toList ++ z ++ ['"'])
      = { st with current := { st.current with topdesk_value := some z } } := by
  obtain ⟨hlf, hhead, hlast⟩ := hok
  have hassoc : "    topdesk_value: \"".toList ++ z ++ ['"']
      = "    topdesk_value: \"".toList ++ (z ++ ['"']) := List.append_assoc _ _ _
  have hls : lstrip ("    topdesk_value: \"".toList ++ (z ++ ['"']))
      = "topdesk_value: \"".toList ++ (z ++ ['"']) := rfl
  have hline : pyStrip ("    topdesk_value: \"".toList ++ (z ++ ['"']))
      = "topdesk_value: ".toList ++ ('"' :: (z ++ ['"'])) := by
    rw [pyStrip, hls]
    calc rstrip ("topdesk_value: \"".toList ++ (z ++ ['"']))
        = rstrip (("topdesk_value: \"".toList ++ z) ++ ['"']) := by rw [List.append_assoc]
      _ = ("topdesk_value: \"".toList ++ z) ++ ['"'] :=
          rstrip_append_last _ _ '"' [] rfl (by decide)
      _ = "topdesk_value: ".toList ++ ('"' :: (z ++ ['"'])) := by
          rw [List.append_assoc]; rfl
  have hq : pyStrip ('"' :: (z ++ ['"'])) = '"' :: (z ++ ['"']) := by
    have hls2 : lstrip ('"' :: (z ++ ['"'])) = '"' :: (z ++ ['"']) := rfl
    rw [pyStrip, hls2]
    calc rstrip ('"' :: (z ++ ['"'])) = rstrip (('"' :: z) ++ ['"']) := rfl
      _ = ('"' :: z) ++ ['"'] := rstrip_append_last _ _ '"' [] rfl (by decide)
      _ = '"' :: (z ++ ['"']) := by rw [List.cons_append]
  rw [parseLine, hassoc, hline, parseStripped_topdesk_val st _ hin, hq,
      stripQuotes_wrap z hhead hlast]

end Merger

namespace Merger

/-! ## Helper lemmas: folding the parser over the written lines -/

theorem parse_one_block (st : ParseSt) (d : DocDiff) (hin : st.inDifferences = true)
    (hok : DocDiffOk d) :
    List.foldl parseLine st
      ["  - field_name: ".toList ++ d.field_name,
       "    zabbix_value: \"".toList ++ pyValStr d.zabbix_value ++ ['"'],
       "    topdesk_value: \"".toList ++ pyValStr d.topdesk_value ++ ['"']]
      = { acc := (if st.current.isEmptyDict then st.acc
                  else { st.acc with differences := st.acc.differences ++ [st.current] }),
          inDifferences := true,
          current := embDiff d } := by
  obtain ⟨hf, hflf, hz, ht⟩ := hok
  have hfold : List.foldl parseLine st
      ["  - field_name: ".toList ++ d.field_name,
       "    zabbix_value: \"".toList ++ pyValStr d.zabbix_value ++ ['"'],
       "    topdesk_value: \"".toList ++ pyValStr d.topdesk_value ++ ['"']]
      = parseLine (parseLine (parseLine st ("  - field_name: ".toList ++ d.field_name))
          ("    zabbix_value: \"".toList ++ pyValStr d.zabbix_value ++ ['"']))
          ("    topdesk_value: \"".toList ++ pyValStr d.topdesk_value ++ ['"']) := rfl
  rw [hfold, parseLine_field st d.field_name hin hf]
  rw [parseLine_zabbix]
  rw [parseLine_topdesk]
  any_goals exact hin
  any_goals exact hz
  any_goals exact ht
  rw [hin]
  rfl

theorem embDiff_not_empty (d : DocDiff) : (embDiff d).isEmptyDict = false := rfl

theorem parse_diff_blocks (ds : List DocDiff) : (∀ d ∈ ds, DocDiffOk d) →
    ∀ st : ParseSt, st.inDifferences = true →
      ((diffLines ds).foldl parseLine st).inDifferences = true ∧
      ((diffLines ds).foldl parseLine st).acc.asset_id = st.acc.asset_id ∧
      ((diffLines ds).foldl parseLine st).acc.note = st.acc.note ∧
      ((diffLines ds).foldl parseLine st).acc.differences
          ++ pendingOf ((diffLines ds).foldl parseLine st).current
        = st.acc.differences ++ pendingOf st.current ++ ds.map embDiff := by
  induction ds with
  | nil =>
    intro _ st hin
    exact ⟨hin, rfl, rfl, by simp [diffLines]⟩
  | cons d ds ih =>
    intro hds st hin
    have hdl : diffLines (d :: ds)
        = ["  - field_name: ".toList ++ d.field_name,
           "    zabbix_value: \"".toList ++ pyValStr d.zabbix_value ++ ['"'],
           "    topdesk_value: \"".toList ++ pyValStr d.topdesk_value ++ ['"']]
          ++ diffLines ds := by
      simp [diffLines]
    rw [hdl, List.foldl_append]
    rw [parse_one_block st d hin (hds d (List.mem_cons_self _ _))]
    obtain ⟨h1, h2, h3, h4⟩ :=
      ih (fun x hx => hds x (List.mem_cons_of_mem _ hx))
        { acc := (if st.current.isEmptyDict then st.acc
                  else { st.acc with differences := st.acc.differences ++ [st.current] }),
          inDifferences := true, current := embDiff d } rfl
    refine ⟨h1, h2.trans ?_, h3.trans ?_, h4.trans ?_⟩
    · by_cases hce : st.current.isEmptyDict <;> simp [hce]
    · by_cases hce : st.current.isEmptyDict <;> simp [hce]
    · by_cases hce : st.current.isEmptyDict <;>
        simp [pendingOf, hce, embDiff_not_empty, List.append_assoc]

theorem foldl_skip_lines (ls : List Str)
    (h : ∀ l ∈ ls, l = [] ∨ ∃ t, pyStrip l = '#' :: t) :
    ∀ st : ParseSt, ls.foldl parseLine st = st := by
  induction ls with
  | nil => intro st; rfl
  | cons l ls ih =>
    intro st
    rw [List.foldl_cons]
    have hrest : ∀ x ∈ ls, x = [] ∨ ∃ t, pyStrip x = '#' :: t :=
      fun x hx => h x (List.mem_cons_of_mem _ hx)
    rcases h l (List.mem_cons_self _ _) with rfl | ⟨t, ht⟩
    · rw [parseLine_blank]
      exact ih hrest st
    · rw [parseLine_hash st l ⟨t, ht⟩]
      exact ih hrest st

theorem parse_dif_file_parts (content : Str) :
    parse_dif_file content
      = { asset_id := ((splitLines content).foldl parseLine {}).acc.asset_id,
          note := ((splitLines content).foldl parseLine {}).acc.note,
          differences := ((splitLines content).foldl parseLine {}).acc.differences
            ++ pendingOf ((splitLines content).foldl parseLine {}).current } := by
  rw [parse_dif_file]
  by_cases hce : ((splitLines content).foldl parseLine {}).current.isEmptyDict <;>
    simp [hce, pendingOf]

end Merger

namespace Merger

/-! ## Helper lemmas: the written document and its lines -/

theorem difContent_asset_id (a t : Str) (ds : List FieldDiff) :
    (difContent a t ds).asset_id = a := rfl

theorem difContent_note_cases (a t : Str) (ds : List FieldDiff) :
    (difContent a t ds).note = none ∨
    (difContent a t ds).note = some "Asset exists only in Topdesk system".toList ∨
    (difContent a t ds).note = some "Asset exists only in Zabbix system".toList := by
  simp only [difContent]
  cases lastAssetMissing ds with
  | none => exact Or.inl rfl
  | some d =>
    by_cases hz : d.zabbix_value = PyVal.str "absent".toList
    · exact Or.inr (Or.inl (by simp [hz]))
    · refine Or.inr (Or.inr ?_)
      have hz2 : ¬ d.zabbix_value = PyVal.str ['a', 'b', 's', 'e', 'n', 't'] := by
        simpa using hz
      simp [hz2]

theorem writerLines_no_lf (doc : DifDoc)
    (ha : '\n' ∉ doc.asset_id) (ht : '\n' ∉ doc.timestamp)
    (hn : ∀ n, doc.note = some n → '\n' ∉ n)
    (hd : ∀ d ∈ doc.differences, '\n' ∉ d.field_name ∧
      '\n' ∉ pyValStr d.zabbix_value ∧ '\n' ∉ pyValStr d.topdesk_value) :
    ∀ l ∈ writerLines doc, '\n' ∉ l := by
  intro l hl
  rw [writerLines] at hl
  rcases List.mem_append.mp hl with h | hG
  · rcases List.mem_append.mp h with h | hF
    · rcases List.mem_append.mp h with h | hE
      · rcases List.mem_append.mp h with h | hD
        · rcases List.mem_append.mp h with h | hC
          · rcases List.mem_append.mp h with hA | hB
            · rw [List.mem_singleton] at hA
              subst hA
              intro hmem
              rcases List.mem_append.mp hmem with h | h
              · exact absurd h (by decide)
              · exact ha h
            · revert hB
              rcases hnote : doc.note with _ | n <;> intro hB
              · simp [noteLines] at hB
              · dsimp only [noteLines] at hB
                rw [List.mem_singleton] at hB
                subst hB
                intro hmem
                rcases List.mem_append.mp hmem with h | h
                · exact absurd h (by decide)
                · exact hn n hnote h
          · rw [List.mem_singleton] at hC
            subst hC
            decide
        · rw [diffLines, List.mem_flatten] at hD
          obtain ⟨blk, hblk, hlblk⟩ := hD
          rw [List.mem_map] at hblk
          obtain ⟨d, hdmem, rfl⟩ := hblk
          obtain ⟨hfl, hzl, htl⟩ := hd d hdmem
          simp only [List.mem_cons, List.not_mem_nil, or_false] at hlblk
          rcases hlblk with rfl | rfl | rfl
          · intro hmem
            rcases List.mem_append.mp hmem with h | h
            · exact absurd h (by decide)
            · exact hfl h
          · intro hmem
            rcases List.mem_append.mp hmem with h | h
            · rcases List.mem_append.mp h with h | h
              · exact absurd h (by decide)
              · exact hzl h
            · exact absurd h (by decide)
          · intro hmem
            rcases List.mem_append.mp hmem with h | h
            · rcases List.mem_append.mp h with h | h
              · exact absurd h (by decide)
              · exact htl h
            · exact absurd h (by decide)
      · simp only [List.mem_cons, List.not_mem_nil, or_false] at hE
        rcases hE with rfl | rfl | rfl
        · exact List.not_mem_nil _
        · intro hmem
          rcases List.mem_append.mp hmem with h | h
          · exact absurd h (by decide)
          · exact ht h
        · intro hmem
          rcases List.mem_append.mp hmem with h | h
          · exact absurd h (by decide)
          · exact natStr_ne_lf _ h
    · revert hF
      rcases doc.similarity_score_x100 with _ | sc <;> intro hF
      · simp [scoreLines] at hF
      · dsimp only [scoreLines] at hF
        rw [List.mem_singleton] at hF
        subst hF
        intro hmem
        rcases List.mem_append.mp hmem with h | h
        · rcases List.mem_append.mp h with h | h
          · exact absurd h (by decide)
          · exact scoreStr_ne_lf _ h
        · exact absurd h (by decide)
  · simp only [List.mem_cons, List.not_mem_nil, or_false] at hG
    rcases hG with rfl | rfl | rfl <;>
      · intro hmem
        rcases List.mem_append.mp hmem with h | h
        · exact absurd h (by decide)
        · exact natStr_ne_lf _ h

end Merger

namespace Merger

theorem parse_writer_fold (doc : DifDoc)
    (hstrip : pyStrip doc.asset_id = doc.asset_id)
    (hnote : doc.note = none ∨
      doc.note = some "Asset exists only in Topdesk system".toList ∨
      doc.note = some "Asset exists only in Zabbix system".toList)
    (hok : ∀ d ∈ doc.differences, DocDiffOk d) :
    ((writerLines doc).foldl parseLine {}).acc.asset_id = some doc.asset_id ∧
    ((writerLines doc).foldl parseLine {}).acc.note = doc.note ∧
    ((writerLines doc).foldl parseLine {}).acc.differences
        ++ pendingOf ((writerLines doc).foldl parseLine {}).current
      = doc.differences.map embDiff := by
  have e1 : List.foldl parseLine {} ["asset_id: ".toList ++ doc.asset_id]
      = (⟨⟨some doc.asset_id, none, []⟩, false, ⟨none, none, none⟩⟩ : ParseSt) := by
    rw [List.foldl_cons, List.foldl_nil, parseLine_asset {} doc.asset_id hstrip]
  have e2 : List.foldl parseLine
        (⟨⟨some doc.asset_id, none, []⟩, false, ⟨none, none, none⟩⟩ : ParseSt)
        (noteLines doc.note)
      = (⟨⟨some doc.asset_id, doc.note, []⟩, false, ⟨none, none, none⟩⟩ : ParseSt) := by
    rcases hnote with h | h | h <;> rw [h]
    · rfl
    · dsimp only [noteLines]
      rw [List.foldl_cons, List.foldl_nil, parseLine_note_top]
    · dsimp only [noteLines]
      rw [List.foldl_cons, List.foldl_nil, parseLine_note_zab]
  have e3 : List.foldl parseLine
        (⟨⟨some doc.asset_id, doc.note, []⟩, false, ⟨none, none, none⟩⟩ : ParseSt)
        ["differences:".toList]
      = (⟨⟨some doc.asset_id, doc.note, []⟩, true, ⟨none, none, none⟩⟩ : ParseSt) := by
    rw [List.foldl_cons, List.foldl_nil, parseLine_differences]
  have hE : ∀ l ∈ [([] : Str),
      "# Generated: ".toList ++ doc.timestamp,
      "# Total differences: ".toList ++ natStr doc.total_differences],
      l = [] ∨ ∃ u, pyStrip l = '#' :: u := by
    intro l hl
    simp only [List.mem_cons, List.not_mem_nil, or_false] at hl
    rcases hl with rfl | rfl | rfl
    · exact Or.inl rfl
    · exact Or.inr (pyStrip_hash (" Generated: ".toList ++ doc.timestamp))
    · exact Or.inr
        (pyStrip_hash (" Total differences: ".toList ++ natStr doc.total_differences))
  have hF : ∀ (o : Option Int), ∀ l ∈ scoreLines o, l = [] ∨ ∃ u, pyStrip l = '#' :: u := by
    intro o l hl
    cases o with
    | none => exact absurd hl (List.not_mem_nil _)
    | some sc =>
      rw [show scoreLines (some sc)
            = ["# Similarity score: ".toList ++ scoreStr sc ++ ['%']] from rfl,
          List.mem_singleton] at hl
      subst hl
      exact Or.inr (pyStrip_hash ((" Similarity score: ".toList ++ scoreStr sc) ++ ['%']))
  have hG : ∀ l ∈ ["# Value mismatches: ".toList ++ natStr doc.value_mismatches,
      "# Missing in Zabbix: ".toList ++ natStr doc.missing_in_zabbix,
      "# Missing in Topdesk: ".toList ++ natStr doc.missing_in_topdesk],
      l = [] ∨ ∃ u, pyStrip l = '#' :: u := by
    intro l hl
    simp only [List.mem_cons, List.not_mem_nil, or_false] at hl
    rcases hl with rfl | rfl | rfl
    · exact Or.inr (pyStrip_hash (" Value mismatches: ".toList ++ natStr doc.value_mismatches))
    · exact Or.inr (pyStrip_hash (" Missing in Zabbix: ".toList ++ natStr doc.missing_in_zabbix))
    · exact Or.inr (pyStrip_hash (" Missing in Topdesk: ".toList ++ natStr doc.missing_in_topdesk))
  rw [writerLines]
  rw [List.foldl_append, List.foldl_append, List.foldl_append, List.foldl_append,
      List.foldl_append, List.foldl_append]
  rw [e1, e2, e3]
  rw [foldl_skip_lines _ hE, foldl_skip_lines _ (hF doc.similarity_score_x100),
      foldl_skip_lines _ hG]
  obtain ⟨g1, g2, g3, g4⟩ := parse_diff_blocks doc.differences hok
    ⟨⟨some doc.asset_id, doc.note, []⟩, true, ⟨none, none, none⟩⟩ rfl
  exact ⟨g2, g3, g4⟩

end Merger

namespace Merger

/-- C2: Corrected round-trip law for difference documents.  As claimed —
"for arbitrary string values" — the law fails: the writer wraps each value
in double quotes and the parser strips quote characters from both ends of
the parsed value, so a value whose own text ends (or begins) with a double
quote comes back truncated (companion counterexample); newlines inside a
value likewise break the line-oriented format.  Under the conditions that
the writer's format actually preserves — the asset id is strip-stable and
newline-free, the timestamp is newline-free, and every written difference
has a strip-stable, newline-free field name and value texts free of
newlines and of a leading or trailing double quote — parsing the text
written by `generate_dif_file` reproduces the document's `asset_id`, its
`note`, and its ordered difference list of (field_name, zabbix_value,
topdesk_value) triples exactly (values as their written string forms). -/
theorem dif_write_parse_roundtrip (a t : Str) (ds : List FieldDiff)
    (ha : StripStable a ∧ NoLF a) (ht : NoLF t)
    (hok : ∀ d ∈ (difContent a t ds).differences, DocDiffOk d) :
    (parse_dif_file (generate_dif_file a t ds).2).asset_id = some a ∧
    (parse_dif_file (generate_dif_file a t ds).2).note = (difContent a t ds).note ∧
    (parse_dif_file (generate_dif_file a t ds).2).differences
      = ((difContent a t ds).differences).map embDiff := by
  obtain ⟨has, half⟩ := ha
  have hnote := difContent_note_cases a t ds
  have hgen : (generate_dif_file a t ds).2
      = joinNl (writerLines (difContent a t ds)) := rfl
  have hnl : ∀ l ∈ writerLines (difContent a t ds), '\n' ∉ l := by
    apply writerLines_no_lf
    · exact half
    · exact ht
    · intro n hn
      rcases hnote with h | h | h
      · rw [h] at hn
        exact absurd hn (by simp)
      · rw [h] at hn
        injection hn with hn
        subst hn
        decide
      · rw [h] at hn
        injection hn with hn
        subst hn
        decide
    · intro d hd
      obtain ⟨h1, h2, h3, h4⟩ := hok d hd
      exact ⟨h2, h3.1, h4.1⟩
  have hsplit : splitLines (joinNl (writerLines (difContent a t ds)))
      = writerLines (difContent a t ds) ++ [[]] := splitLines_joinNl _ hnl
  obtain ⟨p1, p2, p3⟩ := parse_writer_fold (difContent a t ds) has hnote hok
  rw [hgen, parse_dif_file_parts, hsplit, List.foldl_append]
  rw [show List.foldl parseLine
        (List.foldl parseLine {} (writerLines (difContent a t ds))) [[]]
        = List.foldl parseLine {} (writerLines (difContent a t ds)) from rfl]
  exact ⟨p1, p2, p3⟩

/-- C2 (witness): the corrected round-trip theorem applied to a concrete
one-difference document, all hypotheses discharged by computation. -/
theorem dif_write_parse_roundtrip_witness :
    ((StripStable "A".toList ∧ NoLF "A".toList) ∧ NoLF "T".toList ∧
      (∀ d ∈ (difContent "A".toList "T".toList
          [⟨"f".toList, PyVal.str "x".toList, PyVal.str "y".toList,
            "value_mismatch".toList⟩]).differences, DocDiffOk d)) ∧
    ((parse_dif_file (generate_dif_file "A".toList "T".toList
        [⟨"f".toList, PyVal.str "x".toList, PyVal.str "y".toList,
          "value_mismatch".toList⟩]).2).asset_id = some "A".toList ∧
     (parse_dif_file (generate_dif_file "A".toList "T".toList
        [⟨"f".toList, PyVal.str "x".toList, PyVal.str "y".toList,
          "value_mismatch".toList⟩]).2).note
        = (difContent "A".toList "T".toList
            [⟨"f".toList, PyVal.str "x".toList, PyVal.str "y".toList,
              "value_mismatch".toList⟩]).note ∧
     (parse_dif_file (generate_dif_file "A".toList "T".toList
        [⟨"f".toList, PyVal.str "x".toList, PyVal.str "y".toList,
          "value_mismatch".toList⟩]).2).differences
        = ((difContent "A".toList "T".toList
            [⟨"f".toList, PyVal.str "x".toList, PyVal.str "y".toList,
              "value_mismatch".toList⟩]).differences).map embDiff) :=
  ⟨⟨⟨by unfold StripStable; decide, by unfold NoLF; decide⟩,
    by unfold NoLF; decide,
    by simp only [DocDiffOk, ValueOk]; decide⟩,
   dif_write_parse_roundtrip "A".toList "T".toList
     [⟨"f".toList, PyVal.str "x".toList, PyVal.str "y".toList,
       "value_mismatch".toList⟩]
     ⟨by unfold StripStable; decide, by unfold NoLF; decide⟩
     (by unfold NoLF; decide)
     (by simp only [DocDiffOk, ValueOk]; decide)⟩

/-- C2 (counterexample): with truly arbitrary string values the round trip
fails.  For the value `x"` (ending in a double quote) the writer emits
`zabbix_value: "x""` and the parser's `strip('"')` returns `x`, so the
parsed difference list differs from the written one. -/
theorem dif_roundtrip_value_counterexample :
    (parse_dif_file (generate_dif_file "A".toList "T".toList
        [⟨"f".toList, PyVal.str ['x', '"'], PyVal.str "v".toList,
          "value_mismatch".toList⟩]).2).differences
      ≠ ((difContent "A".toList "T".toList
        [⟨"f".toList, PyVal.str ['x', '"'], PyVal.str "v".toList,
          "value_mismatch".toList⟩]).differences).map embDiff := by
  decide

end Merger
